import Mathlib

/-!
# Drone Planner (`src/main.cpp`): a shallow embedding of the event loop

The program is one `main` function: an SDL event loop that loads images, runs an
edge detector on them, samples "drones" from the edge pixels (`Place`), lets the
user drag drones with the mouse and records point configurations in a per-image
history (`pushHistory`).

Modelling conventions.

* `int` values are modelled by `ℤ`: signed overflow is undefined behaviour in C++, and
  the coordinates and sizes that occur stay within 32 bits.  The `size_t` field
  `historyIndex` is a natural number and the one `size_t` sum, `historyIndex + 1`, is
  taken modulo `2 ^ 64`.  The size of a `std::vector` is a natural number below
  `2 ^ 64`.  C++ integer division truncates toward zero and is rendered by `Int.tdiv`.
* A `float` is modelled by the rational number it denotes.  Every conversion or
  arithmetic operation that produces a `float` rounds its exact result with
  `f32`, round-to-nearest-even on a 24 bit significand.  The conversion
  `float → int` truncates toward zero.
* The external libraries are inputs of the model: the decoded surface
  dimensions and the edge image come with the load request, the permutation
  chosen by `std::shuffle` comes with the frame, and `WantCaptureMouse` comes
  with each event.
-/

namespace DronePlanner

/-! ## `float` arithmetic -/

/-- Round a rational to the nearest integer, ties going to the even one. -/
def roundHalfEven (q : ℚ) : ℤ :=
  let f := ⌊q⌋
  let r := q - f
  if r < 1 / 2 then f else if 1 / 2 < r then f + 1 else if f % 2 = 0 then f else f + 1

/-- Rounding of an exact result to IEEE-754 binary32, round-to-nearest-even:
the unit in the last place of `q` is `2 ^ (e - 23)` where `2 ^ e ≤ |q| < 2 ^ (e + 1)`
(and `e = -126` in the subnormal range).  Overflow to infinity (`|q| ≥ 2 ^ 128`) is
not represented; the `int` inputs of this program are below `2 ^ 31`. -/
def f32 (q : ℚ) : ℚ :=
  if q = 0 then 0
  else
    let e : ℤ := max (Int.log 2 |q|) (-126)
    let ulp : ℚ := (2 : ℚ) ^ (e - 23)
    (roundHalfEven (q / ulp) : ℚ) * ulp

/-- Conversion `int → float`, as in `d.x = mx - cx`. -/
def ofInt (n : ℤ) : ℚ := f32 (n : ℚ)

/-- The `float` subtraction. -/
def fsub (a b : ℚ) : ℚ := f32 (a - b)

/-- The `float` division. -/
def fdiv (a b : ℚ) : ℚ := f32 (a / b)

/-- Conversion `float → int`, as in `int(d.x)`: truncation toward zero. -/
def toInt (q : ℚ) : ℤ := if 0 ≤ q then ⌊q⌋ else ⌈q⌉

/-! ## Data model -/

/-- The `struct Drone { int id; float x, y; }`. -/
structure Drone where
  id : ℤ
  x : ℚ
  y : ℚ
deriving DecidableEq

/-- The `SDL_Rect`. -/
structure SDL_Rect where
  x : ℤ
  y : ℤ
  w : ℤ
  h : ℤ
deriving DecidableEq

/-- The `cv::Point` (integer pixel coordinates). -/
structure Point where
  x : ℤ
  y : ℤ
deriving DecidableEq

/-- A single-channel 8 bit `cv::Mat`: `rows * cols` bytes in row-major order. -/
structure Mat where
  rows : ℕ
  cols : ℕ
  data : List ℕ
deriving DecidableEq

/-- The pixel access `m.at<uchar>(y, x)`. -/
def Mat.at_ (m : Mat) (y x : ℕ) : ℕ := m.data.getD (y * m.cols + x) 0

/-- The `struct ImageState` (the two GPU texture handles are left out: nothing
modelled here reads them). -/
structure ImageState where
  path : String
  imgRect : SDL_Rect
  edgesMat : Mat
  drones : List Drone
  history : List (List Drone)
  historyIndex : ℕ
  placed : Bool
  droneCount : ℤ
deriving DecidableEq

/-- The kinds of SDL events the loop distinguishes. -/
inductive EventType where
  | SDL_QUIT
  | SDL_MOUSEBUTTONDOWN
  | SDL_MOUSEBUTTONUP
  | SDL_MOUSEMOTION
  | other
deriving DecidableEq

/-- The mouse button of a button event. -/
inductive Button where
  | SDL_BUTTON_LEFT
  | SDL_BUTTON_MIDDLE
  | SDL_BUTTON_RIGHT
deriving DecidableEq

/-- One polled `SDL_Event`, together with the value `ImGui::GetIO().WantCaptureMouse`
has while the event is handled. -/
structure Event where
  type : EventType
  button : Button
  x : ℤ
  y : ℤ
  wantCaptureMouse : Bool
deriving DecidableEq

/-- The local variables of `main` that survive from one frame to the next. -/
structure AppState where
  images : List ImageState
  currentImage : ℤ
  running : Bool
  dragging : Bool
  dragId : ℤ
deriving DecidableEq

/-- The state at the head of the main loop. -/
def init : AppState :=
  { images := [], currentImage := -1, running := true, dragging := false, dragId := -1 }

/-! ## `pushHistory` -/

/-- The lambda `pushHistory`: erase the entries after `historyIndex`, append the current
drone list, point `historyIndex` at it.  `historyIndex + 1` is `size_t` arithmetic and wraps
at `2 ^ 64`; the erase starts at `begin() + historyIndex + 1`, the same wrapped offset. -/
def pushHistory (st : ImageState) : ImageState :=
  let next := (st.historyIndex + 1) % 2 ^ 64
  let history := if next < st.history.length then st.history.take next else st.history
  let history := history ++ [st.drones]
  { st with history := history, historyIndex := history.length - 1 }

/-! ## Event handling (lines 63-101) -/

/-- Centre of the image rectangle on screen, `imgRect.x + imgRect.w/2`. -/
def centerX (r : SDL_Rect) : ℤ := r.x + Int.tdiv r.w 2

/-- Centre of the image rectangle on screen, `imgRect.y + imgRect.h/2`. -/
def centerY (r : SDL_Rect) : ℤ := r.y + Int.tdiv r.h 2

/-- Screen column of a drone, `sx = cx + int(d.x)`. -/
def screenX (cx : ℤ) (d : Drone) : ℤ := cx + toInt d.x

/-- Screen row of a drone, `sy = cy - int(d.y)`. -/
def screenY (cy : ℤ) (d : Drone) : ℤ := cy - toInt d.y

/-- The test of the mouse-down loop, `abs(mx - sx) < 10 && abs(my - sy) < 10`. -/
def hit (cx cy mx my : ℤ) (d : Drone) : Bool :=
  decide (|mx - screenX cx d| < 10) && decide (|my - screenY cy d| < 10)

/-- The mouse-down loop over `st.drones`: the id of the first drone that passes the
test, at which the loop breaks. -/
def hitTest (cx cy mx my : ℤ) : List Drone → Option ℤ
  | [] => none
  | d :: ds => if hit cx cy mx my d then some d.id else hitTest cx cy mx my ds

/-- The mouse-motion loop over `st.drones`: the first drone whose id is `dragId` gets the
new coordinates, then the loop breaks. -/
def moveDrone (dragId : ℤ) (x y : ℚ) : List Drone → List Drone
  | [] => []
  | d :: ds => if d.id = dragId then { d with x := x, y := y } :: ds
               else d :: moveDrone dragId x y ds

/-- The body of the `SDL_PollEvent` loop for one event.  The three `if` blocks run in
program order on the reference `st = images[currentImage]`; an index outside the list,
which the C++ leaves undefined, is answered by leaving the state alone (it does not occur
in a reachable state). -/
def handleEvent (ev : Event) (s : AppState) : AppState :=
  let s := if ev.type = EventType.SDL_QUIT then { s with running := false } else s
  if 0 ≤ s.currentImage ∧ ev.wantCaptureMouse = false then
    match s.images[s.currentImage.toNat]? with
    | none => s
    | some st =>
      let cx := centerX st.imgRect
      let cy := centerY st.imgRect
      -- mouse button down
      let pressed : Option ℤ :=
        if ev.type = EventType.SDL_MOUSEBUTTONDOWN ∧ ev.button = Button.SDL_BUTTON_LEFT then
          hitTest cx cy ev.x ev.y st.drones
        else none
      let dragging := if pressed.isSome then true else s.dragging
      let dragId := pressed.getD s.dragId
      -- mouse button up
      let released := dragging && decide (ev.type = EventType.SDL_MOUSEBUTTONUP)
      let st := if released then pushHistory st else st
      let dragging := if released then false else dragging
      -- mouse motion
      let st :=
        if dragging && decide (ev.type = EventType.SDL_MOUSEMOTION) then
          { st with drones := moveDrone dragId (ofInt (ev.x - cx)) (ofInt (cy - ev.y)) st.drones }
        else st
      { s with images := s.images.set s.currentImage.toNat st,
               dragging := dragging, dragId := dragId }
  else s

/-! ## Loading an image (lines 124-162) -/

/-- What the file dialog and the libraries deliver for a successful load: the path, the
size of the decoded surface and the bytes of the Canny edge image
(`surf->h` rows of `surf->w` bytes). -/
structure Loaded where
  path : String
  w : ℕ
  h : ℕ
  edges : List ℕ
deriving DecidableEq

/-- The `ImageState` built for a loaded surface. -/
def newImage (l : Loaded) : ImageState :=
  { path := l.path
    imgRect := { x := Int.tdiv (1024 - (l.w : ℤ)) 2, y := Int.tdiv (768 - (l.h : ℤ)) 2,
                 w := l.w, h := l.h }
    edgesMat := { rows := l.h, cols := l.w, data := l.edges }
    drones := []
    history := []
    historyIndex := 0
    placed := false
    droneCount := 0 }

/-- The file dialog block: `none` when the dialog is not confirmed in this frame or
`IMG_Load` fails. -/
def loadStep (l : Option Loaded) (s : AppState) : AppState :=
  match l with
  | none => s
  | some l =>
    let images := s.images ++ [newImage l]
    { s with images := images, currentImage := (images.length : ℤ) - 1 }

/-! ## The taskbar (lines 165-221) -/

/-- One row of the edge scan: the columns `x` of row `y` with a non-zero byte. -/
def edgeRow (m : Mat) (y : ℕ) : List Point :=
  (List.range m.cols).filterMap
    (fun x => if 0 < m.at_ y x then some { x := (x : ℤ), y := (y : ℤ) } else none)

/-- The edge scan of `Place`: all pixels with a non-zero byte, row by row. -/
def edgePoints (m : Mat) : List Point :=
  (List.range m.rows).flatMap (edgeRow m)

/-- The drone made from pixel `p` in iteration `i` of the `Place` loop:
`{i + 1, p.x - w / 2.0f, h / 2.0f - p.y}`. -/
def mkDrone (r : SDL_Rect) (i : ℕ) (p : Point) : Drone :=
  { id := (i : ℤ) + 1
    x := fsub (ofInt p.x) (fdiv (ofInt r.w) 2)
    y := fsub (fdiv (ofInt r.h) 2) (ofInt p.y) }

/-- The `Place` button handler; `shuffle` is the permutation `std::shuffle` applies with
the current state of `rng`. -/
def place (shuffle : List Point → List Point) (st : ImageState) : ImageState :=
  if st.placed = false ∧ 0 < st.droneCount then
    let pts := edgePoints st.edgesMat
    if st.droneCount ≤ (pts.length : ℤ) then
      let pts := shuffle pts
      let drones := (List.range st.droneCount.toNat).map
        (fun i => mkDrone st.imgRect i (pts.getD i { x := 0, y := 0 }))
      let st := pushHistory { st with drones := drones }
      { st with placed := true }
    else st
  else st

/-- What the user does to the taskbar widgets in one frame: the `<< Prev` and `Next >>`
buttons, an edit of the `droneCount` input, the `Place` button, and the permutation
`std::shuffle` would apply.  `Insert` only opens the file dialog and `Save` only writes a
file; neither changes the state modelled here. -/
structure Taskbar where
  prev : Bool
  next : Bool
  cnt : Option ℤ
  place : Bool
  shuffle : List Point → List Point

/-- The taskbar block.  The reference `st` is bound to `images[currentImage]` on entry and
keeps denoting that image when `Prev` or `Next` change `currentImage`. -/
def taskbarStep (u : Taskbar) (s : AppState) : AppState :=
  if 0 ≤ s.currentImage then
    match s.images[s.currentImage.toNat]? with
    | none => s
    | some st =>
      let i := s.currentImage.toNat
      let cur := s.currentImage
      let cur := if u.prev ∧ 0 < cur then cur - 1 else cur
      let cur := if u.next ∧ cur + 1 < (s.images.length : ℤ) then cur + 1 else cur
      let st := { st with droneCount := u.cnt.getD st.droneCount }
      let st := if st.droneCount < 0 then { st with droneCount := 0 } else st
      let st := if u.place then place u.shuffle st else st
      { s with images := s.images.set i st, currentImage := cur }
  else s

/-! ## The main loop -/

/-- The three blocks of a frame that change the state. -/
inductive Action where
  | event (ev : Event)
  | fileDialog (l : Option Loaded)
  | taskbar (u : Taskbar)

/-- Effect of one block. -/
def step (a : Action) (s : AppState) : AppState :=
  match a with
  | .event ev => handleEvent ev s
  | .fileDialog l => loadStep l s
  | .taskbar u => taskbarStep u s

/-- Everything that reaches the program during one iteration of `while (running)`. -/
structure Frame where
  events : List Event
  load : Option Loaded
  ui : Taskbar

/-- The blocks of a frame in program order: the polled events, the file dialog,
the taskbar. -/
def Frame.actions (f : Frame) : List Action :=
  f.events.map Action.event ++ [Action.fileDialog f.load, Action.taskbar f.ui]

/-- Run a sequence of blocks. -/
def run (as : List Action) (s : AppState) : AppState := as.foldl (fun s a => step a s) s

/-- One iteration of `while (running)`. -/
def frame (f : Frame) (s : AppState) : AppState := run f.actions s

/-- The main loop on a sequence of frames: it stops once `running` is false. -/
def mainLoop : List Frame → AppState → AppState
  | [], s => s
  | f :: fs, s => if s.running then mainLoop fs (frame f s) else s

/-- The states the program can be in between two blocks: `init` followed by any sequence
of blocks.  The states at the head of the main loop are among them (`mainLoop_reachable`). -/
def Reachable (s : AppState) : Prop := ∃ as : List Action, s = run as init

/-- The drone in position `j` of the drone list of image `i`, if there is one. -/
def droneAt (s : AppState) (i j : ℕ) : Option Drone :=
  (s.images[i]?).bind (fun st => st.drones[j]?)

/-! ## Properties of images, states and runs used below -/

/-- The ways block `a` can change one image: not at all; an event can push the drone list
on the history or move a drone; the taskbar can set `droneCount` and then run `Place`. -/
def ImgStepBy (a : Action) (st st' : ImageState) : Prop :=
  st' = st
    ∨ (∃ ev, a = Action.event ev
        ∧ (st' = pushHistory st ∨ ∃ k x y, st' = { st with drones := moveDrone k x y st.drones }))
    ∨ ∃ u c, a = Action.taskbar u
        ∧ (st' = { st with droneCount := c }
          ∨ (u.place = true ∧ st' = place u.shuffle { st with droneCount := c }))

/-- The ways one block can change one image. -/
def ImgStep (st st' : ImageState) : Prop :=
  st' = st ∨ st' = pushHistory st
    ∨ (∃ k x y, st' = { st with drones := moveDrone k x y st.drones })
    ∨ ∃ c, st' = { st with droneCount := c } ∨ ∃ sh, st' = place sh { st with droneCount := c }

/-- What holds of every image of a reachable state: `historyIndex` is the index of the last
history entry, the drone ids are `1, 2, ..., n` in list order, and the drone list is empty
exactly when `placed` is false. -/
def ImageOk (st : ImageState) : Prop :=
  st.historyIndex = st.history.length - 1
    ∧ st.drones.map Drone.id = (List.range st.drones.length).map (fun j : ℕ => (j : ℤ) + 1)
    ∧ (st.placed = false ↔ st.drones = [])

/-- What holds of every reachable state. -/
def Inv (s : AppState) : Prop :=
  ((s.currentImage = -1 ∧ s.images = [])
      ∨ (0 ≤ s.currentImage ∧ s.currentImage < (s.images.length : ℤ)))
    ∧ ∀ (i : ℕ) (st : ImageState), s.images[i]? = some st → ImageOk st

/-! ## Concrete images, events and runs -/

/-- A 2x2 image whose edge image has its one non-zero byte at pixel `(0, 0)`. -/
def demoLoaded : Loaded := { path := "a.png", w := 2, h := 2, edges := [255, 0, 0, 0] }

/-- The image state of `demoLoaded` after `Place` with `droneCount = 1`: one drone, made
from pixel `(0, 0)`, at `(-1, 1)`. -/
def demoPlaced : ImageState :=
  { newImage demoLoaded with
    drones := [⟨1, -1, 1⟩], history := [[⟨1, -1, 1⟩]], historyIndex := 0,
    placed := true, droneCount := 1 }

/-- A state in the middle of a drag of drone 1 of `demoPlaced`. -/
def demoDragging : AppState :=
  { images := [demoPlaced], currentImage := 0, running := true, dragging := true, dragId := 1 }

/-- A mouse motion far to the left of the window, `|mx| < 2 ^ 24`. -/
def farMotion : Event :=
  { type := EventType.SDL_MOUSEMOTION, button := Button.SDL_BUTTON_LEFT,
    x := -16777215, y := 0, wantCaptureMouse := false }

/-- A mouse motion inside the window. -/
def nearMotion : Event :=
  { type := EventType.SDL_MOUSEMOTION, button := Button.SDL_BUTTON_LEFT,
    x := 600, y := 300, wantCaptureMouse := false }

/-- An image state whose `historyIndex` is `SIZE_MAX`, with two history entries. -/
def wrapState : ImageState :=
  { newImage demoLoaded with
    drones := [⟨1, 5, 5⟩], history := [[⟨1, -1, 1⟩], [⟨1, 2, 2⟩]],
    historyIndex := 2 ^ 64 - 1, placed := true, droneCount := 1 }

/-- An image state with three history entries whose `historyIndex` points at the first. -/
def redoState : ImageState :=
  { newImage demoLoaded with
    drones := [⟨1, 7, 7⟩], history := [[⟨1, -1, 1⟩], [⟨1, 2, 2⟩], [⟨1, 3, 3⟩]],
    historyIndex := 0, placed := true, droneCount := 1 }

/-- The state after `switchTrace` and the motion `nearMotion`: the drone of the first image
has followed the mouse to `(88, 84)`. -/
def movedState : AppState :=
  { images := [{ demoPlaced with drones := [⟨1, 88, 84⟩] }, demoPlaced], currentImage := 0,
    running := true, dragging := true, dragId := 1 }

/-- A release of the left button outside the UI. -/
def demoRelease : Event :=
  { type := EventType.SDL_MOUSEBUTTONUP, button := Button.SDL_BUTTON_LEFT,
    x := 600, y := 300, wantCaptureMouse := false }

/-- The state after the demo image is loaded. -/
def demoState : AppState := run [Action.fileDialog (some demoLoaded)] init

/-- The taskbar left alone. -/
def idle : Taskbar := { prev := false, next := false, cnt := none, place := false, shuffle := id }

/-- The user types 1 into the `droneCount` input. -/
def typeOne : Taskbar := { idle with cnt := some 1 }

/-- The user presses `Place`. -/
def pressPlace : Taskbar := { idle with place := true }

/-- The user presses `<< Prev`. -/
def pressPrev : Taskbar := { idle with prev := true }

/-- A left-button press outside the UI on the square of the drone of `demoPlaced`, which is
drawn around `(511, 383)`. -/
def demoPress : Event :=
  { type := EventType.SDL_MOUSEBUTTONDOWN, button := Button.SDL_BUTTON_LEFT,
    x := 511, y := 383, wantCaptureMouse := false }

/-- Eight frames: the demo image is loaded, 1 is typed, `Place` is pressed; the same again
for a second image; the drone of the second image is pressed; `<< Prev` is pressed. -/
def switchFrames : List Frame :=
  [ { events := [], load := some demoLoaded, ui := idle },
    { events := [], load := none, ui := typeOne },
    { events := [], load := none, ui := pressPlace },
    { events := [], load := some demoLoaded, ui := idle },
    { events := [], load := none, ui := typeOne },
    { events := [], load := none, ui := pressPlace },
    { events := [demoPress], load := none, ui := idle },
    { events := [], load := none, ui := pressPrev } ]

/-- The blocks of the first six frames of `switchFrames`. -/
def setupTrace : List Action :=
  [ Action.fileDialog (some demoLoaded), Action.taskbar idle,
    Action.fileDialog none, Action.taskbar typeOne,
    Action.fileDialog none, Action.taskbar pressPlace,
    Action.fileDialog (some demoLoaded), Action.taskbar idle,
    Action.fileDialog none, Action.taskbar typeOne,
    Action.fileDialog none, Action.taskbar pressPlace ]

/-- The blocks of `switchFrames`. -/
def switchTrace : List Action :=
  setupTrace ++
    [ Action.event demoPress, Action.fileDialog none, Action.taskbar idle,
      Action.fileDialog none, Action.taskbar pressPrev ]

/-- The state after `setupTrace`: two placed images, the second one current. -/
def twoPlaced : AppState :=
  { images := [demoPlaced, demoPlaced], currentImage := 1, running := true,
    dragging := false, dragId := -1 }

/-- The state after `switchTrace`: the first image current, a drag of drone id 1 going on. -/
def switched : AppState :=
  { images := [demoPlaced, demoPlaced], currentImage := 0, running := true,
    dragging := true, dragId := 1 }

/-! ## Facts about the `float` model -/

theorem roundHalfEven_intCast (n : ℤ) : roundHalfEven (n : ℚ) = n := by
  simp [roundHalfEven]

/-- Rounding when the binary exponent of the argument is known. -/
theorem f32_of_exponent (q : ℚ) (e : ℤ) (he : -126 ≤ e) (h1 : (2 : ℚ) ^ e ≤ |q|)
    (h2 : |q| < (2 : ℚ) ^ (e + 1)) :
    f32 q = (roundHalfEven (q / (2 : ℚ) ^ (e - 23)) : ℚ) * (2 : ℚ) ^ (e - 23) := by
  have hq : q ≠ 0 := by
    intro h
    rw [h, abs_zero] at h1
    exact absurd h1 (not_le.mpr (by positivity))
  have hpos : 0 < |q| := abs_pos.mpr hq
  have hlog : Int.log 2 |q| = e := by
    apply le_antisymm
    · have := (Int.lt_zpow_iff_log_lt (b := 2) (by norm_num) hpos).mp (by exact_mod_cast h2)
      omega
    · exact (Int.zpow_le_iff_le_log (b := 2) (by norm_num) hpos).mp (by exact_mod_cast h1)
  simp only [f32, if_neg hq, hlog, max_eq_left he]

/-- A value with a significand below `2 ^ 24` and an exponent in range is a `float`:
rounding leaves it alone. -/
theorem f32_exact_lt (m k : ℤ) (hm : |m| < 2 ^ 24) (hk : -149 ≤ k) :
    f32 ((m : ℚ) * (2 : ℚ) ^ k) = (m : ℚ) * (2 : ℚ) ^ k := by
  by_cases hm0 : m = 0
  · simp [hm0, f32]
  set q : ℚ := (m : ℚ) * (2 : ℚ) ^ k with hqdef
  have h2k : (0 : ℚ) < (2 : ℚ) ^ k := by positivity
  have hq : q ≠ 0 := by
    rw [hqdef]
    exact mul_ne_zero (by exact_mod_cast hm0) h2k.ne'
  have hpos : 0 < |q| := abs_pos.mpr hq
  have hlt : |q| < (2 : ℚ) ^ (k + 24) := by
    rw [hqdef, abs_mul, abs_of_pos h2k, add_comm, zpow_add₀ (by norm_num : (2 : ℚ) ≠ 0)]
    apply mul_lt_mul_of_pos_right _ h2k
    have : ((|m| : ℤ) : ℚ) < ((2 ^ 24 : ℤ) : ℚ) := by exact_mod_cast hm
    rw [zpow_ofNat]
    exact_mod_cast this
  have hlog : Int.log 2 |q| < k + 24 :=
    (Int.lt_zpow_iff_log_lt (b := 2) (by norm_num) hpos).mp (by exact_mod_cast hlt)
  simp only [f32, if_neg hq]
  set e : ℤ := max (Int.log 2 |q|) (-126) with hedef
  have he : e - 23 ≤ k := by
    have : e < k + 24 := max_lt hlog (by omega)
    omega
  obtain ⟨j, hj⟩ : ∃ j : ℕ, k = (e - 23) + j := ⟨(k - (e - 23)).toNat, by omega⟩
  have hdiv : q / (2 : ℚ) ^ (e - 23) = ((m * 2 ^ j : ℤ) : ℚ) := by
    rw [hqdef, hj, zpow_add₀ (by norm_num : (2 : ℚ) ≠ 0)]
    have : (2 : ℚ) ^ (e - 23) ≠ 0 := by positivity
    field_simp
    ring
  rw [hdiv, roundHalfEven_intCast, hqdef, hj, zpow_add₀ (by norm_num : (2 : ℚ) ≠ 0),
    zpow_natCast]
  push_cast
  ring

/-- The same with the bound `2 ^ 24` included. -/
theorem f32_exact (m k : ℤ) (hm : |m| ≤ 2 ^ 24) (hk : -149 ≤ k) :
    f32 ((m : ℚ) * (2 : ℚ) ^ k) = (m : ℚ) * (2 : ℚ) ^ k := by
  rcases lt_or_eq_of_le hm with h | h
  · exact f32_exact_lt m k h hk
  · have h24 : (2 : ℚ) ^ (k + 24) = 16777216 * (2 : ℚ) ^ k := by
      rw [zpow_add₀ (by norm_num : (2 : ℚ) ≠ 0)]
      norm_num [mul_comm]
    rcases (abs_eq (by norm_num : (0 : ℤ) ≤ 2 ^ 24)).mp h with h | h
    · have := f32_exact_lt 1 (k + 24) (by norm_num) (by omega)
      rw [h24] at this
      rw [h]
      simpa using this
    · have := f32_exact_lt (-1) (k + 24) (by norm_num) (by omega)
      rw [h24] at this
      rw [h]
      simpa using this

/-- Integers up to `2 ^ 24` in absolute value convert to `float` exactly. -/
theorem ofInt_exact (n : ℤ) (hn : |n| ≤ 2 ^ 24) : ofInt n = (n : ℚ) := by
  simpa [ofInt] using f32_exact n 0 hn (by norm_num)

/-- Halves of integers up to `2 ^ 24` in absolute value are `float`s. -/
theorem f32_half (n : ℤ) (hn : |n| ≤ 2 ^ 24) : f32 ((n : ℚ) / 2) = (n : ℚ) / 2 := by
  have := f32_exact n (-1) hn (by norm_num)
  simpa [div_eq_mul_inv] using this

theorem toInt_intCast (n : ℤ) : toInt (n : ℚ) = n := by
  simp [toInt]

/-- Truncation of a half-integer `n + 1/2`: toward zero. -/
theorem toInt_add_half (n : ℤ) : toInt ((n : ℚ) + 1 / 2) = if 0 ≤ n then n else n + 1 := by
  have hfloor : ⌊(n : ℚ) + 1 / 2⌋ = n := by
    rw [Int.floor_eq_iff]
    constructor <;> linarith
  have hceil : ⌈(n : ℚ) + 1 / 2⌉ = n + 1 := by
    rw [Int.ceil_eq_iff]
    push_cast
    constructor <;> linarith
  unfold toInt
  by_cases hn : 0 ≤ n
  · have : (0 : ℚ) ≤ (n : ℚ) + 1 / 2 := by
      have : (0 : ℚ) ≤ (n : ℚ) := by exact_mod_cast hn
      linarith
    rw [if_pos this, if_pos hn, hfloor]
  · have : ¬ (0 : ℚ) ≤ (n : ℚ) + 1 / 2 := by
      have : (n : ℚ) ≤ -1 := by exact_mod_cast (by omega : n ≤ -1)
      linarith
    rw [if_neg this, if_neg hn, hceil]

/-- The value that is not a `float`: the odd integer `-(2 ^ 24 + 511)` rounds to its
even neighbour `-(2 ^ 24 + 512)`. -/
theorem ofInt_neg_16777727 : ofInt (-16777727) = -16777728 := by
  unfold ofInt
  push_cast
  rw [f32_of_exponent (-16777727) 24 (by norm_num) (by norm_num [abs_of_neg])
    (by norm_num [abs_of_neg])]
  have h : ((-16777727 : ℚ) / (2 : ℚ) ^ ((24 : ℤ) - 23)) = -8388864 + 1 / 2 := by norm_num
  have hf : ⌊(-8388864 + 1 / 2 : ℚ)⌋ = -8388864 := by
    rw [Int.floor_eq_iff]; norm_num
  rw [h]
  simp only [roundHalfEven, hf]
  norm_num

/-! ## Facts about the event handler -/

theorem hitTest_eq_find (cx cy mx my : ℤ) (ds : List Drone) :
    hitTest cx cy mx my ds = (ds.find? (hit cx cy mx my)).map Drone.id := by
  induction ds with
  | nil => rfl
  | cons d ds ih =>
    by_cases h : hit cx cy mx my d = true
    · simp [hitTest, List.find?, h]
    · simp [hitTest, List.find?, h, ih]

/-- A left-button press outside the UI only touches `dragging` and `dragId`. -/
theorem handleEvent_press (s : AppState) (st : ImageState) (ev : Event)
    (hcur : 0 ≤ s.currentImage) (hst : s.images[s.currentImage.toNat]? = some st)
    (hdown : ev.type = EventType.SDL_MOUSEBUTTONDOWN)
    (hleft : ev.button = Button.SDL_BUTTON_LEFT) (hui : ev.wantCaptureMouse = false) :
    handleEvent ev s =
      { s with
        images := s.images.set s.currentImage.toNat st
        dragging :=
          if (hitTest (centerX st.imgRect) (centerY st.imgRect) ev.x ev.y st.drones).isSome
          then true else s.dragging
        dragId :=
          (hitTest (centerX st.imgRect) (centerY st.imgRect) ev.x ev.y st.drones).getD
            s.dragId } := by
  simp [handleEvent, hdown, hleft, hui, hcur, hst]

/-- A mouse motion outside the UI during a drag moves the first drone with id `dragId`. -/
theorem handleEvent_motion (s : AppState) (st : ImageState) (ev : Event)
    (hcur : 0 ≤ s.currentImage) (hst : s.images[s.currentImage.toNat]? = some st)
    (hmot : ev.type = EventType.SDL_MOUSEMOTION) (hui : ev.wantCaptureMouse = false)
    (hdrag : s.dragging = true) :
    handleEvent ev s =
      { s with
        images := s.images.set s.currentImage.toNat
          { st with drones := (moveDrone s.dragId (ofInt (ev.x - centerX st.imgRect))
              (ofInt (centerY st.imgRect - ev.y)) st.drones) } } := by
  simp [handleEvent, hmot, hui, hcur, hst, hdrag]

/-- A button release outside the UI during a drag ends the drag and pushes the drone list
of the current image on its history. -/
theorem handleEvent_release (s : AppState) (st : ImageState) (ev : Event)
    (hcur : 0 ≤ s.currentImage) (hst : s.images[s.currentImage.toNat]? = some st)
    (hup : ev.type = EventType.SDL_MOUSEBUTTONUP) (hui : ev.wantCaptureMouse = false)
    (hdrag : s.dragging = true) :
    handleEvent ev s =
      { s with
        images := s.images.set s.currentImage.toNat (pushHistory st)
        dragging := false } := by
  simp [handleEvent, hup, hui, hcur, hst, hdrag]

theorem moveDrone_find (k : ℤ) (x y : ℚ) (ds : List Drone) (d : Drone)
    (h : ds.find? (fun d => decide (d.id = k)) = some d) :
    (moveDrone k x y ds).find? (fun d => decide (d.id = k)) = some { d with x := x, y := y } := by
  induction ds with
  | nil => simp at h
  | cons a ds ih =>
    by_cases ha : a.id = k
    · simp [List.find?, ha] at h
      subst h
      simp [moveDrone, List.find?, ha]
    · simp [List.find?, ha] at h
      simp [moveDrone, List.find?, ha, ih h]

theorem set_getElem? {α : Type} (l : List α) (i : ℕ) (a b : α) (h : l[i]? = some a) :
    (l.set i b)[i]? = some b := by
  have hi : i < l.length := by
    by_contra hcon
    rw [List.getElem?_eq_none (by omega)] at h
    cases h
  simp [List.getElem?_set, hi]

/-! ## `pushHistory` (C5) -/

/-- C5 as stated fails at `historyIndex = SIZE_MAX`: with two history entries the sum
`historyIndex + 1` wraps to 0, the erase branch runs from `begin()`, and the history
becomes the single entry `drones` with `historyIndex = 0`, where the first
`min |h| (k+1) = 2` entries were to be kept. -/
theorem pushHistory_wraps :
    wrapState.history.length = 2 ∧ wrapState.historyIndex = 2 ^ 64 - 1
      ∧ min wrapState.history.length (wrapState.historyIndex + 1) = 2
      ∧ (pushHistory wrapState).history = [wrapState.drones]
      ∧ (pushHistory wrapState).historyIndex = 0
      ∧ (pushHistory wrapState).history
          ≠ wrapState.history.take (min wrapState.history.length (wrapState.historyIndex + 1))
              ++ [wrapState.drones] := by
  decide

/-- C5, amended: when `historyIndex + 1` does not wrap (`historyIndex < SIZE_MAX`),
`pushHistory` keeps the first `min |h| (k+1)` history entries unchanged and in order,
appends the current drone list as the newest entry, sets `historyIndex` to the index of that
entry (the new size minus one) and leaves the drone list unchanged. -/
theorem pushHistory_appends (st : ImageState) (hk : st.historyIndex + 1 < 2 ^ 64) :
    (pushHistory st).history
        = st.history.take (min st.history.length (st.historyIndex + 1)) ++ [st.drones]
      ∧ (pushHistory st).historyIndex = (pushHistory st).history.length - 1
      ∧ (pushHistory st).history.getLast? = some st.drones
      ∧ (pushHistory st).drones = st.drones := by
  have hmod : (st.historyIndex + 1) % 2 ^ 64 = st.historyIndex + 1 := Nat.mod_eq_of_lt hk
  have hh : (pushHistory st).history
      = st.history.take (min st.history.length (st.historyIndex + 1)) ++ [st.drones] := by
    unfold pushHistory
    simp only [hmod]
    by_cases h : st.historyIndex + 1 < st.history.length
    · simp [h, Nat.min_eq_right h.le]
    · have hmin : min st.history.length (st.historyIndex + 1) = st.history.length :=
        Nat.min_eq_left (by omega)
      simp [h, hmin]
  refine ⟨hh, rfl, ?_, rfl⟩
  rw [hh]
  simp

/-- The amended C5 on an image with three history entries and `historyIndex = 0`: the two
entries after the first are discarded and the drone list becomes entry 1. -/
theorem pushHistory_appends_witness :
    redoState.historyIndex + 1 < 2 ^ 64 ∧ redoState.history.length = 3
      ∧ (pushHistory redoState).history = [[⟨1, -1, 1⟩], [⟨1, 7, 7⟩]]
      ∧ (pushHistory redoState).historyIndex = 1 := by
  have h := pushHistory_appends redoState (by decide)
  refine ⟨by decide, by decide, ?_, ?_⟩
  · rw [h.1]
    decide
  · rw [h.2.1, h.1]
    decide

/-! ## The mouse-down hit test (C7) -/

/-- C7: a left-button press outside the UI at `(mx, my)`: if some drone of the current
image has `|mx - sx| < 10` and `|my - sy| < 10`, then `dragging` becomes true and `dragId`
the id of the first such drone in list order; if none has, `dragging` and `dragId` are
unchanged; and a press inside the 12x12 square drawn for a drone starts a drag. -/
theorem press_picks_first_drone (s : AppState) (st : ImageState) (ev : Event)
    (hcur : 0 ≤ s.currentImage) (hst : s.images[s.currentImage.toNat]? = some st)
    (hdown : ev.type = EventType.SDL_MOUSEBUTTONDOWN)
    (hleft : ev.button = Button.SDL_BUTTON_LEFT) (hui : ev.wantCaptureMouse = false) :
    let cx := st.imgRect.x + Int.tdiv st.imgRect.w 2
    let cy := st.imgRect.y + Int.tdiv st.imgRect.h 2
    let under : Drone → Bool := fun d =>
      decide (|ev.x - (cx + toInt d.x)| < 10 ∧ |ev.y - (cy - toInt d.y)| < 10)
    ((∃ d ∈ st.drones, under d = true) →
        ∃ d, st.drones.find? under = some d ∧ (handleEvent ev s).dragging = true
          ∧ (handleEvent ev s).dragId = d.id)
      ∧ ((∀ d ∈ st.drones, under d = false) →
          (handleEvent ev s).dragging = s.dragging ∧ (handleEvent ev s).dragId = s.dragId)
      ∧ (∀ d ∈ st.drones,
          (cx + toInt d.x) - 6 ≤ ev.x ∧ ev.x < (cx + toInt d.x) + 6
            ∧ (cy - toInt d.y) - 6 ≤ ev.y ∧ ev.y < (cy - toInt d.y) + 6 →
          (handleEvent ev s).dragging = true) := by
  intro cx cy under
  have hunder : under = hit (centerX st.imgRect) (centerY st.imgRect) ev.x ev.y := by
    funext d
    simp [under, hit, screenX, screenY, centerX, centerY, cx, cy]
  have hev := handleEvent_press s st ev hcur hst hdown hleft hui
  rw [hitTest_eq_find, ← hunder] at hev
  have hsome : (∃ d ∈ st.drones, under d = true) →
      ∃ d, st.drones.find? under = some d ∧ (handleEvent ev s).dragging = true
        ∧ (handleEvent ev s).dragId = d.id := by
    rintro ⟨d, hd, hdu⟩
    cases hf : st.drones.find? under with
    | none =>
      rw [List.find?_eq_none] at hf
      exact absurd hdu (hf d hd)
    | some d' =>
      refine ⟨d', rfl, ?_, ?_⟩
      · rw [hev, hf]; rfl
      · rw [hev, hf]; rfl
  refine ⟨hsome, ?_, ?_⟩
  · intro hnone
    have hf : st.drones.find? under = none := by
      rw [List.find?_eq_none]
      intro d hd
      simp [hnone d hd]
    rw [hev, hf]
    exact ⟨rfl, rfl⟩
  · intro d hd hsq
    obtain ⟨_, _, hdrag, _⟩ := hsome ⟨d, hd, by
      simp only [under, decide_eq_true_eq, abs_lt]
      omega⟩
    exact hdrag

/-! ## Coordinates of placed and dragged drones (C2, C3) -/

/-- The x coordinate `Place` gives to pixel column `px` is the exact `px - w/2` as long as
the operands stay within 24 bits. -/
theorem mkDrone_x_exact (r : SDL_Rect) (i : ℕ) (p : Point) (hw : |r.w| ≤ 2 ^ 24)
    (hp : |p.x| ≤ 2 ^ 24) (hd : |2 * p.x - r.w| ≤ 2 ^ 24) :
    (mkDrone r i p).x = (p.x : ℚ) - (r.w : ℚ) / 2 := by
  have h1 : fdiv (ofInt r.w) 2 = (r.w : ℚ) / 2 := by
    rw [fdiv, ofInt_exact r.w hw, f32_half r.w hw]
  have h2 : (p.x : ℚ) - (r.w : ℚ) / 2 = ((2 * p.x - r.w : ℤ) : ℚ) / 2 := by
    push_cast; ring
  show fsub (ofInt p.x) (fdiv (ofInt r.w) 2) = _
  rw [h1, fsub, ofInt_exact p.x hp, h2, f32_half _ hd]

/-- The y coordinate `Place` gives to pixel row `py` is the exact `h/2 - py` as long as
the operands stay within 24 bits. -/
theorem mkDrone_y_exact (r : SDL_Rect) (i : ℕ) (p : Point) (hh : |r.h| ≤ 2 ^ 24)
    (hp : |p.y| ≤ 2 ^ 24) (hd : |r.h - 2 * p.y| ≤ 2 ^ 24) :
    (mkDrone r i p).y = (r.h : ℚ) / 2 - (p.y : ℚ) := by
  have h1 : fdiv (ofInt r.h) 2 = (r.h : ℚ) / 2 := by
    rw [fdiv, ofInt_exact r.h hh, f32_half r.h hh]
  have h2 : (r.h : ℚ) / 2 - (p.y : ℚ) = ((r.h - 2 * p.y : ℤ) : ℚ) / 2 := by
    push_cast; ring
  show fsub (fdiv (ofInt r.h) 2) (ofInt p.y) = _
  rw [h1, fsub, ofInt_exact p.y hp, h2, f32_half _ hd]

/-- The C++ division by two, which truncates toward zero, in terms of the flooring
division. -/
theorem tdiv_two (n : ℤ) : Int.tdiv n 2 = if 0 ≤ n then n / 2 else -((-n) / 2) := by
  by_cases h : 0 ≤ n
  · rw [if_pos h, Int.tdiv_eq_ediv h (by norm_num)]
  · rw [if_neg h]
    have := Int.tdiv_eq_ediv (a := -n) (b := 2) (by omega) (by norm_num)
    rw [Int.neg_tdiv] at this
    omega

/-- Truncation of a half of an integer. -/
theorem toInt_half (n : ℤ) : toInt ((n : ℚ) / 2) = Int.tdiv n 2 := by
  rw [tdiv_two]
  rcases Int.even_or_odd n with ⟨m, hm⟩ | ⟨m, hm⟩
  · have : ((n : ℚ) / 2) = (m : ℚ) := by
      rw [hm]; push_cast; ring
    rw [this, toInt_intCast, hm]
    split_ifs <;> omega
  · have : ((n : ℚ) / 2) = (m : ℚ) + 1 / 2 := by
      rw [hm]; push_cast; ring
    rw [this, toInt_add_half, hm]
    split_ifs <;> omega

/-- Where the renderer draws the drone placed from pixel column `px`: on the column of the
pixel, except in an image of odd width right of the centre, where it is one column to the
left. -/
theorem render_placed_x (r : SDL_Rect) (i : ℕ) (p : Point) (hw : r.w ≤ 2 ^ 24)
    (h0 : 0 ≤ p.x) (h1 : p.x < r.w) :
    screenX (centerX r) (mkDrone r i p)
      = r.x + p.x - (if r.w % 2 = 1 ∧ r.w / 2 < p.x then 1 else 0) := by
  rw [screenX, mkDrone_x_exact r i p (abs_le.mpr ⟨by omega, hw⟩) (abs_le.mpr ⟨by omega, by omega⟩)
    (abs_le.mpr ⟨by omega, by omega⟩)]
  have h2 : (p.x : ℚ) - (r.w : ℚ) / 2 = ((2 * p.x - r.w : ℤ) : ℚ) / 2 := by
    push_cast; ring
  rw [h2, toInt_half, centerX, tdiv_two, tdiv_two]
  split_ifs <;> omega

/-- Where the renderer draws the drone placed from pixel row `py`: on the row of the pixel,
except in an image of odd height below the centre, where it is one row higher. -/
theorem render_placed_y (r : SDL_Rect) (i : ℕ) (p : Point) (hh : r.h ≤ 2 ^ 24)
    (h0 : 0 ≤ p.y) (h1 : p.y < r.h) :
    screenY (centerY r) (mkDrone r i p)
      = r.y + p.y - (if r.h % 2 = 1 ∧ r.h / 2 < p.y then 1 else 0) := by
  rw [screenY, mkDrone_y_exact r i p (abs_le.mpr ⟨by omega, hh⟩) (abs_le.mpr ⟨by omega, by omega⟩)
    (abs_le.mpr ⟨by omega, by omega⟩)]
  have h2 : (r.h : ℚ) / 2 - (p.y : ℚ) = ((r.h - 2 * p.y : ℤ) : ℚ) / 2 := by
    push_cast; ring
  rw [h2, toInt_half, centerY, tdiv_two, tdiv_two]
  split_ifs <;> omega

/-- C2, evaluated where it fails: in a 5x5 image (rectangle origin `(509, 381)` as set
on load) the drone that `Place` makes from the edge pixel `(3, 3)` gets the coordinates
`(1/2, -1/2)` and is rendered at `(511, 383)`, while pixel `(3, 3)` of the edge texture
is drawn at `(512, 384)`. -/
theorem placed_drone_off_edge_pixel :
    (newImage ⟨"odd.png", 5, 5,
        [0, 0, 0, 0, 0, 0, 0, 0, 0, 0, 0, 0, 0, 0, 0, 0, 0, 0, 255, 0, 0, 0, 0, 0, 0]⟩).imgRect
        = ⟨509, 381, 5, 5⟩
      ∧ mkDrone ⟨509, 381, 5, 5⟩ 0 ⟨3, 3⟩ = ⟨1, 1 / 2, -1 / 2⟩
      ∧ screenX (centerX ⟨509, 381, 5, 5⟩) (mkDrone ⟨509, 381, 5, 5⟩ 0 ⟨3, 3⟩) = 511
      ∧ screenY (centerY ⟨509, 381, 5, 5⟩) (mkDrone ⟨509, 381, 5, 5⟩ 0 ⟨3, 3⟩) = 383
      ∧ (509 : ℤ) + 3 = 512 ∧ (381 : ℤ) + 3 = 384 := by
  refine ⟨by decide, ?_, ?_, ?_, by norm_num, by norm_num⟩
  · have hx := mkDrone_x_exact ⟨509, 381, 5, 5⟩ 0 ⟨3, 3⟩ (by norm_num) (by norm_num)
      (by norm_num)
    have hy := mkDrone_y_exact ⟨509, 381, 5, 5⟩ 0 ⟨3, 3⟩ (by norm_num) (by norm_num)
      (by norm_num)
    have hid : (mkDrone ⟨509, 381, 5, 5⟩ 0 ⟨3, 3⟩).id = 1 := by simp [mkDrone]
    cases hm : mkDrone ⟨509, 381, 5, 5⟩ 0 ⟨3, 3⟩ with
    | mk id x y =>
      rw [hm] at hx hy hid
      simp only at hx hy hid
      rw [hx, hy, hid]
      norm_num
  · rw [render_placed_x _ _ _ (by norm_num) (by norm_num) (by norm_num)]
    decide
  · rw [render_placed_y _ _ _ (by norm_num) (by norm_num) (by norm_num)]
    decide

/-- C3 as stated fails: the centre of `demoPlaced` is `(512, 384)`; a motion event at
`mx = -16777215`, `my = 0` (both below `2 ^ 24` in absolute value) during the drag of drone 1
stores `x = float(-16777727) = -16777728`, and the drone is then drawn at
`sx = -16777216`, not at `mx`. -/
theorem far_motion_not_inverse :
    |farMotion.x| < 2 ^ 24 ∧ |farMotion.y| < 2 ^ 24
      ∧ demoDragging.dragging = true ∧ demoDragging.dragId = 1
      ∧ centerX demoPlaced.imgRect = 512 ∧ centerY demoPlaced.imgRect = 384
      ∧ (handleEvent farMotion demoDragging).images.map ImageState.drones
          = [[⟨1, -16777728, 384⟩]]
      ∧ screenX 512 ⟨1, -16777728, 384⟩ = -16777216
      ∧ screenX 512 ⟨1, -16777728, 384⟩ ≠ farMotion.x := by
  have hcx : centerX demoPlaced.imgRect = 512 := by decide
  have hcy : centerY demoPlaced.imgRect = 384 := by decide
  have hsx : screenX 512 ⟨1, -16777728, 384⟩ = -16777216 := by
    have : toInt (-16777728 : ℚ) = -16777728 := by
      have := toInt_intCast (-16777728)
      simpa using this
    simp [screenX, this]
  refine ⟨by decide, by decide, rfl, rfl, hcx, hcy, ?_, hsx, ?_⟩
  · rw [handleEvent_motion demoDragging demoPlaced farMotion (by decide) (by decide) rfl rfl rfl,
      hcx, hcy]
    have h1 : ofInt (farMotion.x - 512) = -16777728 := by
      have : farMotion.x - 512 = -16777727 := by decide
      rw [this, ofInt_neg_16777727]
    have h2 : ofInt (384 - farMotion.y) = 384 := by
      have : (384 : ℤ) - farMotion.y = 384 := by decide
      rw [this, ofInt_exact 384 (by norm_num)]
      norm_num
    rw [h1, h2]
    simp [demoDragging, demoPlaced, moveDrone]
  · rw [hsx]
    decide

/-- C3, amended: during a drag, a mouse motion outside the UI at `(mx, my)` with
`|mx - cx| ≤ 2 ^ 24` and `|cy - my| ≤ 2 ^ 24` gives the dragged drone (the first drone with
id `dragId`) the coordinates `x = mx - cx`, `y = cy - my`, and the screen position
`(cx + int(x), cy - int(y))` of that drone is exactly `(mx, my)`. -/
theorem drag_motion_inverse (s : AppState) (st : ImageState) (ev : Event) (d : Drone)
    (hcur : 0 ≤ s.currentImage) (hst : s.images[s.currentImage.toNat]? = some st)
    (hdrag : s.dragging = true) (hmot : ev.type = EventType.SDL_MOUSEMOTION)
    (hui : ev.wantCaptureMouse = false)
    (hd : st.drones.find? (fun d => decide (d.id = s.dragId)) = some d)
    (hx : |ev.x - centerX st.imgRect| ≤ 2 ^ 24) (hy : |centerY st.imgRect - ev.y| ≤ 2 ^ 24) :
    ∃ st' d', (handleEvent ev s).images[s.currentImage.toNat]? = some st'
      ∧ st'.imgRect = st.imgRect
      ∧ st'.drones.find? (fun d => decide (d.id = s.dragId)) = some d'
      ∧ d'.id = d.id
      ∧ d'.x = (ev.x : ℚ) - (centerX st.imgRect : ℚ)
      ∧ d'.y = (centerY st.imgRect : ℚ) - (ev.y : ℚ)
      ∧ screenX (centerX st.imgRect) d' = ev.x
      ∧ screenY (centerY st.imgRect) d' = ev.y := by
  rw [handleEvent_motion s st ev hcur hst hmot hui hdrag]
  refine ⟨_, _, set_getElem? _ _ _ _ hst, rfl, moveDrone_find _ _ _ _ _ hd, rfl, ?_, ?_, ?_, ?_⟩
  · simp [ofInt_exact _ hx]
  · simp [ofInt_exact _ hy]
  · simp only [screenX, ofInt_exact _ hx, toInt_intCast]
    omega
  · simp only [screenY, ofInt_exact _ hy, toInt_intCast]
    omega

/-- The amended C3 at a motion inside the window: drone 1 of `demoPlaced` follows the
mouse to `(600, 300)`. -/
theorem drag_motion_inverse_witness :
    ∃ st' d', (handleEvent nearMotion demoDragging).images[demoDragging.currentImage.toNat]?
        = some st'
      ∧ st'.imgRect = demoPlaced.imgRect
      ∧ st'.drones.find? (fun d => decide (d.id = demoDragging.dragId)) = some d'
      ∧ d'.id = 1
      ∧ d'.x = (nearMotion.x : ℚ) - (centerX demoPlaced.imgRect : ℚ)
      ∧ d'.y = (centerY demoPlaced.imgRect : ℚ) - (nearMotion.y : ℚ)
      ∧ screenX (centerX demoPlaced.imgRect) d' = nearMotion.x
      ∧ screenY (centerY demoPlaced.imgRect) d' = nearMotion.y :=
  drag_motion_inverse demoDragging demoPlaced nearMotion ⟨1, -1, 1⟩ (by decide) (by decide) rfl
    rfl rfl (by decide) (by decide) (by decide)

/-! ## The edge scan and `Place` (C1, C6) -/

/-- `Place` when it goes through. -/
theorem place_eq (shuffle : List Point → List Point) (st : ImageState)
    (hplaced : st.placed = false) (hcnt : 0 < st.droneCount)
    (henough : st.droneCount ≤ ((edgePoints st.edgesMat).length : ℤ)) :
    place shuffle st =
      { pushHistory { st with drones := ((List.range st.droneCount.toNat).map
          (fun i => mkDrone st.imgRect i ((shuffle (edgePoints st.edgesMat)).getD i ⟨0, 0⟩))) }
        with placed := true } := by
  simp [place, hplaced, hcnt, henough]

theorem run_nil (s : AppState) : run [] s = s := rfl

theorem run_cons (a : Action) (as : List Action) (s : AppState) :
    run (a :: as) s = run as (step a s) := rfl

theorem run_append (as bs : List Action) (s : AppState) :
    run (as ++ bs) s = run bs (run as s) := by
  simp [run, List.foldl_append]

theorem run_snoc (as : List Action) (a : Action) (s : AppState) :
    run (as ++ [a]) s = step a (run as s) := by
  rw [run_append, run_cons, run_nil]

/-- The main loop runs blocks. -/
theorem mainLoop_eq_run (fs : List Frame) (s : AppState) :
    ∃ as : List Action, mainLoop fs s = run as s := by
  induction fs generalizing s with
  | nil => exact ⟨[], rfl⟩
  | cons f fs ih =>
    by_cases hr : s.running = true
    · obtain ⟨as, has⟩ := ih (frame f s)
      refine ⟨f.actions ++ as, ?_⟩
      rw [run_append]
      simp only [mainLoop, hr, if_true]
      exact has
    · exact ⟨[], by simp [mainLoop, hr, run_nil]⟩

/-- Every state at the head of the main loop is reachable. -/
theorem mainLoop_reachable (fs : List Frame) : Reachable (mainLoop fs init) :=
  let ⟨as, h⟩ := mainLoop_eq_run fs init
  ⟨as, h⟩

theorem Reachable.step {s : AppState} (h : Reachable s) (a : Action) :
    Reachable (step a s) := by
  obtain ⟨as, rfl⟩ := h
  exact ⟨as ++ [a], (run_snoc as a init).symm⟩

/-- Induction over the reachable states. -/
theorem reachable_induction (P : AppState → Prop) (h0 : P init)
    (hstep : ∀ a s, P s → P (step a s)) : ∀ s, Reachable s → P s := by
  rintro s ⟨as, rfl⟩
  induction as using List.reverseRecOn with
  | nil => exact h0
  | append_singleton as a ih =>
    rw [run_snoc]
    exact hstep a _ ih

/-! ## What one block does to one image -/

theorem moveDrone_length (k : ℤ) (x y : ℚ) (ds : List Drone) :
    (moveDrone k x y ds).length = ds.length := by
  induction ds with
  | nil => rfl
  | cons d ds ih =>
    by_cases h : d.id = k <;> simp [moveDrone, h, ih]

theorem moveDrone_ids (k : ℤ) (x y : ℚ) (ds : List Drone) :
    (moveDrone k x y ds).map Drone.id = ds.map Drone.id := by
  induction ds with
  | nil => rfl
  | cons d ds ih =>
    by_cases h : d.id = k <;> simp [moveDrone, h, ih]

/-- The body of the event loop leaves the image it works on as it is, or pushes its drone
list on the history (button up), or moves one drone (motion). -/
theorem handleEvent_cases (ev : Event) (s : AppState) :
    (handleEvent ev s).currentImage = s.currentImage
      ∧ ((handleEvent ev s).images = s.images
        ∨ ∃ st, s.images[s.currentImage.toNat]? = some st ∧ 0 ≤ s.currentImage
            ∧ ev.wantCaptureMouse = false
            ∧ ((handleEvent ev s).images = s.images.set s.currentImage.toNat (pushHistory st)
              ∨ (ev.type = EventType.SDL_MOUSEMOTION ∧ s.dragging = true
                  ∧ (handleEvent ev s).dragging = true ∧ (handleEvent ev s).dragId = s.dragId
                  ∧ (handleEvent ev s).images = s.images.set s.currentImage.toNat
                      { st with drones := (moveDrone s.dragId
                          (ofInt (ev.x - centerX st.imgRect))
                          (ofInt (centerY st.imgRect - ev.y)) st.drones) }))) := by
  unfold handleEvent
  by_cases hq : ev.type = EventType.SDL_QUIT
  · simp only [hq, if_true]
    by_cases hc : 0 ≤ s.currentImage ∧ ev.wantCaptureMouse = false
    · rw [if_pos hc]
      cases hst : s.images[s.currentImage.toNat]? with
      | none => simp
      | some st =>
        have : s.images.set s.currentImage.toNat st = s.images := by
          apply List.ext_getElem?
          intro j
          by_cases hj : s.currentImage.toNat = j
          · subst hj
            rw [set_getElem? _ _ _ _ hst, hst]
          · simp [List.getElem?_set, hj]
        simp [this]
    · rw [if_neg hc]
      simp
  · simp only [hq, if_false]
    by_cases hc : 0 ≤ s.currentImage ∧ ev.wantCaptureMouse = false
    · rw [if_pos hc]
      cases hst : s.images[s.currentImage.toNat]? with
      | none => simp
      | some st =>
        have hsame : s.images.set s.currentImage.toNat st = s.images := by
          apply List.ext_getElem?
          intro j
          by_cases hj : s.currentImage.toNat = j
          · subst hj
            rw [set_getElem? _ _ _ _ hst, hst]
          · simp [List.getElem?_set, hj]
        refine ⟨rfl, ?_⟩
        by_cases hdown : ev.type = EventType.SDL_MOUSEBUTTONDOWN
        · left
          simp [hdown, hsame]
        · by_cases hup : ev.type = EventType.SDL_MOUSEBUTTONUP
          · by_cases hd : s.dragging = true
            · right
              exact ⟨st, rfl, hc.1, hc.2, Or.inl (by simp [hup, hd])⟩
            · left
              simp [hup, hd, hsame]
          · by_cases hmot : ev.type = EventType.SDL_MOUSEMOTION
            · by_cases hd : s.dragging = true
              · right
                refine ⟨st, rfl, hc.1, hc.2, Or.inr ⟨hmot, hd, ?_, ?_, ?_⟩⟩ <;> simp [hmot, hd]
              · left
                simp [hmot, hd, hsame]
            · left
              simp [hdown, hup, hmot, hsame]
    · rw [if_neg hc]
      simp

/-- The taskbar block leaves the image it works on as it is up to `droneCount`, or runs
`Place` on it after the `droneCount` input; `Prev` and `Next` move `currentImage` by at
most one and keep it inside `0 .. images.size() - 1`. -/
theorem taskbarStep_cases (u : Taskbar) (s : AppState) :
    (taskbarStep u s = s
      ∨ ∃ st c, s.images[s.currentImage.toNat]? = some st ∧ 0 ≤ s.currentImage
          ∧ ((taskbarStep u s).images
                = s.images.set s.currentImage.toNat { st with droneCount := c }
            ∨ (u.place = true ∧ (taskbarStep u s).images
                = s.images.set s.currentImage.toNat
                    (place u.shuffle { st with droneCount := c }))))
      ∧ (taskbarStep u s).dragging = s.dragging ∧ (taskbarStep u s).dragId = s.dragId
      ∧ (taskbarStep u s).images.length = s.images.length
      ∧ ((taskbarStep u s).currentImage = s.currentImage
        ∨ (0 < s.currentImage ∧ (taskbarStep u s).currentImage = s.currentImage - 1)
        ∨ ((taskbarStep u s).currentImage = s.currentImage + 1
            ∧ s.currentImage + 1 < (s.images.length : ℤ))
        ∨ (0 < s.currentImage ∧ (taskbarStep u s).currentImage = s.currentImage
            ∧ u.prev = true ∧ u.next = true)) := by
  unfold taskbarStep
  by_cases hc : 0 ≤ s.currentImage
  · rw [if_pos hc]
    cases hst : s.images[s.currentImage.toNat]? with
    | none => simp
    | some st =>
      refine ⟨Or.inr ⟨st, ?_⟩, rfl, rfl, by simp, ?_⟩
      · by_cases hneg : u.cnt.getD st.droneCount < 0
        · refine ⟨0, rfl, hc, ?_⟩
          by_cases hp : u.place = true
          · right; exact ⟨hp, by simp [hneg, hp]⟩
          · left; simp [hneg, hp]
        · refine ⟨u.cnt.getD st.droneCount, rfl, hc, ?_⟩
          by_cases hp : u.place = true
          · right; exact ⟨hp, by simp [hneg, hp]⟩
          · left; simp [hneg, hp]
      · simp only
        by_cases hprev : u.prev = true ∧ 0 < s.currentImage
        · rw [if_pos hprev]
          by_cases hnext : u.next = true ∧ s.currentImage - 1 + 1 < (s.images.length : ℤ)
          · rw [if_pos hnext]
            right; right; right
            exact ⟨hprev.2, by omega, hprev.1, hnext.1⟩
          · rw [if_neg hnext]
            right; left
            exact ⟨hprev.2, rfl⟩
        · rw [if_neg hprev]
          by_cases hnext : u.next = true ∧ s.currentImage + 1 < (s.images.length : ℤ)
          · rw [if_pos hnext]
            right; right; left
            exact ⟨rfl, hnext.2⟩
          · rw [if_neg hnext]
            left; rfl
  · rw [if_neg hc]
    simp

theorem ImgStepBy.imgStep {a : Action} {st st' : ImageState} (h : ImgStepBy a st st') :
    ImgStep st st' := by
  rcases h with h | ⟨_, _, h | h⟩ | ⟨u, c, _, h | ⟨_, h⟩⟩
  · exact Or.inl h
  · exact Or.inr (Or.inl h)
  · exact Or.inr (Or.inr (Or.inl h))
  · exact Or.inr (Or.inr (Or.inr ⟨c, Or.inl h⟩))
  · exact Or.inr (Or.inr (Or.inr ⟨c, Or.inr ⟨_, h⟩⟩))

theorem set_cases {α : Type} {c : α} (l : List α) (k i : ℕ) (a b : α) (hk : l[k]? = some a)
    (hi : l[i]? = some b) :
    (i = k ∧ a = b ∧ (l.set k c)[i]? = some c) ∨ (i ≠ k ∧ (l.set k c)[i]? = some b) := by
  by_cases h : i = k
  · subst h
    rw [hk] at hi
    exact Or.inl ⟨rfl, Option.some.inj hi, set_getElem? _ _ _ _ hk⟩
  · right
    refine ⟨h, ?_⟩
    rw [List.getElem?_set_ne (Ne.symm h)]
    exact hi

/-- Every image present before a block is present after it, at the same index, changed in
one of the ways of `ImgStepBy`. -/
theorem step_image_by (a : Action) (s : AppState) (i : ℕ) (st : ImageState)
    (h : s.images[i]? = some st) :
    ∃ st', (step a s).images[i]? = some st' ∧ ImgStepBy a st st' := by
  cases a with
  | event ev =>
    rcases (handleEvent_cases ev s).2 with hsame | ⟨st0, hst0, _, _, hpush | ⟨_, _, _, _, hmove⟩⟩
    · exact ⟨st, by rw [step, hsame]; exact h, Or.inl rfl⟩
    · rcases set_cases (c := pushHistory st0) s.images _ i st0 st hst0 h with
        ⟨_, rfl, hget⟩ | ⟨_, hget⟩
      · exact ⟨_, by rw [step, hpush]; exact hget, Or.inr (Or.inl ⟨ev, rfl, Or.inl rfl⟩)⟩
      · exact ⟨st, by rw [step, hpush]; exact hget, Or.inl rfl⟩
    · rcases set_cases (c := { st0 with drones := (moveDrone s.dragId
          (ofInt (ev.x - centerX st0.imgRect)) (ofInt (centerY st0.imgRect - ev.y))
          st0.drones) }) s.images _ i st0 st hst0 h with ⟨_, rfl, hget⟩ | ⟨_, hget⟩
      · exact ⟨_, by rw [step, hmove]; exact hget,
          Or.inr (Or.inl ⟨ev, rfl, Or.inr ⟨_, _, _, rfl⟩⟩)⟩
      · exact ⟨st, by rw [step, hmove]; exact hget, Or.inl rfl⟩
  | fileDialog l =>
    cases l with
    | none => exact ⟨st, h, Or.inl rfl⟩
    | some l =>
      refine ⟨st, ?_, Or.inl rfl⟩
      have hi : i < s.images.length := by
        by_contra hcon
        rw [List.getElem?_eq_none (by omega)] at h
        cases h
      simp only [step, loadStep]
      rw [List.getElem?_append_left hi]
      exact h
  | taskbar u =>
    rcases (taskbarStep_cases u s).1 with hsame | ⟨st0, c, hst0, _, hcount | ⟨hp, hplace⟩⟩
    · exact ⟨st, by rw [step, hsame]; exact h, Or.inl rfl⟩
    · rcases set_cases (c := { st0 with droneCount := c }) s.images _ i st0 st hst0 h with
        ⟨_, rfl, hget⟩ | ⟨_, hget⟩
      · exact ⟨_, by rw [step, hcount]; exact hget,
          Or.inr (Or.inr ⟨u, c, rfl, Or.inl rfl⟩)⟩
      · exact ⟨st, by rw [step, hcount]; exact hget, Or.inl rfl⟩
    · rcases set_cases (c := place u.shuffle { st0 with droneCount := c }) s.images _ i st0 st
          hst0 h with ⟨_, rfl, hget⟩ | ⟨_, hget⟩
      · exact ⟨_, by rw [step, hplace]; exact hget,
          Or.inr (Or.inr ⟨u, c, rfl, Or.inr ⟨hp, rfl⟩⟩)⟩
      · exact ⟨st, by rw [step, hplace]; exact hget, Or.inl rfl⟩

theorem step_image (a : Action) (s : AppState) (i : ℕ) (st : ImageState)
    (h : s.images[i]? = some st) :
    ∃ st', (step a s).images[i]? = some st' ∧ ImgStep st st' :=
  let ⟨st', h1, h2⟩ := step_image_by a s i st h
  ⟨st', h1, h2.imgStep⟩

/-- A block adds at most one image, at the end, and a new image is a fresh `newImage`. -/
theorem step_new_image (a : Action) (s : AppState) (i : ℕ) (st' : ImageState)
    (h : (step a s).images[i]? = some st') (hi : s.images.length ≤ i) :
    ∃ l, st' = newImage l := by
  cases a with
  | event ev =>
    have hlen : (handleEvent ev s).images.length = s.images.length := by
      rcases (handleEvent_cases ev s).2 with hsame | ⟨st0, _, _, _, hpush | ⟨_, _, _, _, hmove⟩⟩
      · rw [hsame]
      · rw [hpush, List.length_set]
      · rw [hmove, List.length_set]
    rw [step, List.getElem?_eq_none (by omega)] at h
    cases h
  | fileDialog l =>
    cases l with
    | none =>
      rw [step, loadStep, List.getElem?_eq_none (by omega)] at h
      cases h
    | some l =>
      simp only [step, loadStep] at h
      rw [List.getElem?_append_right hi] at h
      have : i - s.images.length = 0 := by
        by_contra hne
        rw [List.getElem?_eq_none (by simp; omega)] at h
        cases h
      rw [this] at h
      exact ⟨l, by simpa using h.symm⟩
  | taskbar u =>
    rw [step, List.getElem?_eq_none (by rw [(taskbarStep_cases u s).2.2.2.1]; omega)] at h
    cases h

/-! ## Invariants of the reachable states -/

/-- `Place` either changes nothing or goes through. -/
theorem place_cases (sh : List Point → List Point) (st : ImageState) :
    place sh st = st
      ∨ (st.placed = false ∧ 0 < st.droneCount
          ∧ place sh st =
            { pushHistory { st with drones := ((List.range st.droneCount.toNat).map
                (fun i => mkDrone st.imgRect i ((sh (edgePoints st.edgesMat)).getD i ⟨0, 0⟩))) }
              with placed := true }) := by
  by_cases h1 : st.placed = false
  · by_cases h2 : 0 < st.droneCount
    · by_cases h3 : st.droneCount ≤ ((edgePoints st.edgesMat).length : ℤ)
      · exact Or.inr ⟨h1, h2, place_eq sh st h1 h2 h3⟩
      · left; simp [place, h3]
    · left; simp [place, h2]
  · left; simp [place, h1]

theorem imageOk_newImage (l : Loaded) : ImageOk (newImage l) := by
  simp [ImageOk, newImage]

theorem pushHistory_history_of_last (st : ImageState)
    (h : st.historyIndex = st.history.length - 1) (hsize : st.history.length < 2 ^ 64) :
    (pushHistory st).history = st.history ++ [st.drones] := by
  unfold pushHistory
  have : ¬ (st.historyIndex + 1) % 2 ^ 64 < st.history.length := by
    rcases Nat.eq_zero_or_pos st.history.length with h0 | hpos
    · omega
    · rw [Nat.mod_eq_of_lt (by omega)]
      omega
  simp only [this, if_false]

theorem imageOk_step (st st' : ImageState) (hok : ImageOk st) (h : ImgStep st st') :
    ImageOk st' := by
  obtain ⟨hh, hids, hpl⟩ := hok
  rcases h with rfl | rfl | ⟨k, x, y, rfl⟩ | ⟨c, rfl | ⟨sh, rfl⟩⟩
  · exact ⟨hh, hids, hpl⟩
  · exact ⟨rfl, hids, hpl⟩
  · refine ⟨hh, ?_, ?_⟩
    · simp only [moveDrone_ids, moveDrone_length]
      exact hids
    · simp only
      rw [hpl]
      constructor
      · intro h; rw [h]; rfl
      · intro h
        have := moveDrone_length k x y st.drones
        rw [h] at this
        exact List.length_eq_zero.mp this.symm
  · exact ⟨hh, hids, hpl⟩
  · rcases place_cases sh { st with droneCount := c } with h | ⟨_, hc, h⟩
    · rw [h]
      exact ⟨hh, hids, hpl⟩
    · rw [h]
      refine ⟨rfl, ?_, ?_⟩
      · simp [pushHistory, mkDrone]
      · have hc' : 0 < c := hc
        have : c.toNat ≠ 0 := by omega
        simp [pushHistory, this]

theorem handleEvent_length (ev : Event) (s : AppState) :
    (handleEvent ev s).images.length = s.images.length := by
  rcases (handleEvent_cases ev s).2 with hsame | ⟨st0, _, _, _, hpush | ⟨_, _, _, _, hmove⟩⟩
  · rw [hsame]
  · rw [hpush, List.length_set]
  · rw [hmove, List.length_set]

theorem inv_init : Inv init :=
  ⟨Or.inl ⟨rfl, rfl⟩, fun i st h => by simp [init] at h⟩

theorem inv_step (a : Action) (s : AppState) (h : Inv s) : Inv (step a s) := by
  obtain ⟨hidx, himg⟩ := h
  constructor
  · cases a with
    | event ev =>
      simp only [step]
      rw [(handleEvent_cases ev s).1, handleEvent_length]
      rcases hidx with ⟨h1, h2⟩ | h
      · left
        refine ⟨h1, ?_⟩
        have := handleEvent_length ev s
        rw [h2] at this
        exact List.length_eq_zero.mp this
      · exact Or.inr h
    | fileDialog l =>
      cases l with
      | none => exact hidx
      | some l =>
        right
        simp only [step, loadStep, List.length_append, List.length_singleton]
        constructor <;> push_cast <;> omega
    | taskbar u =>
      obtain ⟨_, _, _, hlen, hcur⟩ := taskbarStep_cases u s
      simp only [step]
      rcases hidx with ⟨h1, h2⟩ | ⟨h1, h2⟩
      · left
        have hs : taskbarStep u s = s := by
          unfold taskbarStep
          rw [if_neg (by omega)]
        rw [hs]
        exact ⟨h1, h2⟩
      · right
        rw [hlen]
        rcases hcur with h | ⟨h3, h⟩ | ⟨h, h3⟩ | ⟨h3, h, _⟩ <;> rw [h] <;> omega
  · intro i st' hst'
    by_cases hi : i < s.images.length
    · obtain ⟨st, hst⟩ : ∃ st, s.images[i]? = some st := ⟨s.images[i], by simp [hi]⟩
      obtain ⟨st2, hst2, hstep⟩ := step_image a s i st hst
      rw [hst2] at hst'
      cases hst'
      exact imageOk_step st _ (himg i st hst) hstep
    · obtain ⟨l, rfl⟩ := step_new_image a s i st' hst' (by omega)
      exact imageOk_newImage l

/-- With the index invariant, `images[currentImage]` under the guard `currentImage >= 0`
is an element of the list. -/
theorem currentImage_in_bounds (s : AppState)
    (h : (s.currentImage = -1 ∧ s.images = [])
      ∨ (0 ≤ s.currentImage ∧ s.currentImage < (s.images.length : ℤ)))
    (h0 : 0 ≤ s.currentImage) : ∃ st, s.images[s.currentImage.toNat]? = some st := by
  rcases h with ⟨h1, _⟩ | ⟨_, h2⟩
  · omega
  · have hlt : s.currentImage.toNat < s.images.length := by omega
    exact ⟨s.images[s.currentImage.toNat], by rw [List.getElem?_eq_getElem]⟩

/-- The invariant holds in every reachable state. -/
theorem inv_reachable (s : AppState) (h : Reachable s) : Inv s :=
  reachable_induction Inv inv_init inv_step s h

/-! ## The current-image index (C9) -/

/-- C9: in every reachable state `currentImage = -1` exactly when no image is loaded, and
otherwise `0 ≤ currentImage < images.size()`, so that `images[currentImage]` under the
guard `currentImage >= 0` is an element of the list; `Prev` at index 0 and `Next` at the
last index leave `currentImage` unchanged. -/
theorem currentImage_addresses_image (s : AppState) (h : Reachable s) :
    (s.currentImage = -1 ↔ s.images = [])
      ∧ (s.images ≠ [] → 0 ≤ s.currentImage ∧ s.currentImage < (s.images.length : ℤ))
      ∧ (0 ≤ s.currentImage → ∃ st, s.images[s.currentImage.toNat]? = some st)
      ∧ (∀ u : Taskbar, u.prev = true → u.next = false → s.currentImage = 0 →
          (taskbarStep u s).currentImage = s.currentImage)
      ∧ (∀ u : Taskbar, u.next = true → u.prev = false →
          s.currentImage = (s.images.length : ℤ) - 1 →
          (taskbarStep u s).currentImage = s.currentImage) := by
  obtain ⟨hidx, _⟩ := inv_reachable s h
  refine ⟨?_, ?_, ?_, ?_, ?_⟩
  · rcases hidx with ⟨h1, h2⟩ | ⟨h1, h2⟩
    · exact ⟨fun _ => h2, fun _ => h1⟩
    · constructor
      · intro hc; omega
      · intro he
        rw [he] at h2
        simp at h2
        omega
  · intro hne
    rcases hidx with ⟨_, h2⟩ | h
    · exact absurd h2 hne
    · exact h
  · intro h0
    rcases hidx with ⟨h1, _⟩ | ⟨_, h2⟩
    · omega
    · have hlt : s.currentImage.toNat < s.images.length := by omega
      exact ⟨s.images[s.currentImage.toNat], by rw [List.getElem?_eq_getElem]⟩
  · intro u _ hnext h0
    rcases (taskbarStep_cases u s).2.2.2.2 with h | ⟨h3, _⟩ | ⟨h, h3⟩ | ⟨h3, _⟩
    · exact h
    · omega
    · exfalso
      revert h
      unfold taskbarStep
      rw [if_pos (by omega)]
      cases s.images[s.currentImage.toNat]? with
      | none => simp
      | some st => simp [hnext, h0]
    · omega
  · intro u _ hprev hlast
    rcases (taskbarStep_cases u s).2.2.2.2 with h | ⟨h3, h⟩ | ⟨h, h3⟩ | ⟨h3, h, hp, _⟩
    · exact h
    · exfalso
      revert h
      unfold taskbarStep
      rw [if_pos (by omega)]
      cases s.images[s.currentImage.toNat]? with
      | none => simp; omega
      | some st => simp [hprev, hlast]; omega
    · omega
    · rw [hprev] at hp
      cases hp

/-- C9 in the state after the first image is loaded: `currentImage` is 0. -/
theorem currentImage_addresses_image_witness :
    Reachable demoState ∧ demoState.currentImage = 0
      ∧ ∃ st, demoState.images[demoState.currentImage.toNat]? = some st :=
  ⟨⟨_, rfl⟩, by decide,
    (currentImage_addresses_image demoState ⟨_, rfl⟩).2.2.1 (by decide)⟩

/-! ## The history (C4) -/

/-- C4 as stated fails: no reachable state has an image with
`historyIndex + 1 < history.size()`; the loop has no step that moves `historyIndex` back. -/
theorem no_redo_state_reachable :
    ¬ ∃ s, Reachable s ∧ ∃ st ∈ s.images, st.historyIndex + 1 < st.history.length := by
  rintro ⟨s, hs, st, hmem, hlt⟩
  obtain ⟨i, hi⟩ := List.mem_iff_getElem?.mp hmem
  have := ((inv_reachable s hs).2 i st hi).1
  omega

/-- C4, amended: the program records a per-image history but has no undo or redo.  In
every reachable state `historyIndex` is the index of the last history entry
(`history.size() - 1`, and 0 while the history is empty).  A block of the loop either
leaves the history and `historyIndex` of an image as they are or appends exactly one entry,
the drone list the image has after the block, and points `historyIndex` at it; so the
recorded entries stay and `historyIndex` never moves back.  An entry is recorded by every
button release outside the UI that ends a drag (the drone list of the current image) and by
every `Place` that goes through (the drones just placed).  The history is a `std::vector`,
of size below `2 ^ 64`. -/
theorem history_append_only (s : AppState) (a : Action) (h : Reachable s) (i : ℕ)
    (st : ImageState) (hst : s.images[i]? = some st) (hsize : st.history.length < 2 ^ 64) :
    st.historyIndex = st.history.length - 1
      ∧ ¬ st.historyIndex + 1 < st.history.length
      ∧ ∃ st', (step a s).images[i]? = some st'
          ∧ ((st'.history = st.history ∧ st'.historyIndex = st.historyIndex)
            ∨ (st'.history = st.history ++ [st'.drones]
                ∧ st'.historyIndex = st.history.length))
          ∧ st.historyIndex ≤ st'.historyIndex
          ∧ (∀ ev, a = Action.event ev → ev.type = EventType.SDL_MOUSEBUTTONUP →
              ev.wantCaptureMouse = false → s.dragging = true → (i : ℤ) = s.currentImage →
              st'.history = st.history ++ [st.drones] ∧ st'.historyIndex = st.history.length
                ∧ st'.drones = st.drones)
          ∧ (st.placed = false → st'.placed = true →
              st'.history = st.history ++ [st'.drones]
                ∧ st'.historyIndex = st.history.length) := by
  have hok := ((inv_reachable s h).2 i st hst).1
  refine ⟨hok, by omega, ?_⟩
  obtain ⟨st', hst', hstep⟩ := step_image_by a s i st hst
  have hpush : (pushHistory st).history = st.history ++ [st.drones]
      ∧ (pushHistory st).historyIndex = st.history.length := by
    have h1 := pushHistory_history_of_last st hok hsize
    refine ⟨h1, ?_⟩
    show (pushHistory st).history.length - 1 = st.history.length
    rw [h1]
    simp
  have hplace : ∀ (sh : List Point → List Point) (c : ℤ),
      ({ st with droneCount := c } : ImageState).placed = false →
      (place sh { st with droneCount := c }).placed = true →
      (place sh { st with droneCount := c }).history
          = st.history ++ [(place sh { st with droneCount := c }).drones]
        ∧ (place sh { st with droneCount := c }).historyIndex = st.history.length := by
    intro sh c hnp hp
    rcases place_cases sh { st with droneCount := c } with hsame | ⟨_, _, hgo⟩
    · rw [hsame, hnp] at hp
      cases hp
    · rw [hgo]
      have h1 := pushHistory_history_of_last
        { st with droneCount := c, drones := ((List.range c.toNat).map
            (fun i => mkDrone st.imgRect i ((sh (edgePoints st.edgesMat)).getD i ⟨0, 0⟩))) }
        hok hsize
      refine ⟨h1, ?_⟩
      show (pushHistory _).history.length - 1 = st.history.length
      rw [h1]
      simp
  have hcases : ((st'.history = st.history ∧ st'.historyIndex = st.historyIndex)
      ∨ (st'.history = st.history ++ [st'.drones] ∧ st'.historyIndex = st.history.length))
      ∧ (st.placed = false → st'.placed = true →
          st'.history = st.history ++ [st'.drones]
            ∧ st'.historyIndex = st.history.length) := by
    rcases hstep with rfl | ⟨ev, _, rfl | ⟨k, x, y, rfl⟩⟩ | ⟨u, c, _, rfl | ⟨_, rfl⟩⟩
    · exact ⟨Or.inl ⟨rfl, rfl⟩, fun h1 h2 => by rw [h1] at h2; cases h2⟩
    · exact ⟨Or.inr hpush, fun h1 h2 => by
        have : (pushHistory st).placed = st.placed := rfl
        rw [this, h1] at h2
        cases h2⟩
    · exact ⟨Or.inl ⟨rfl, rfl⟩, fun h1 h2 => by
        have : ({ st with drones := moveDrone k x y st.drones } : ImageState).placed
            = st.placed := rfl
        rw [this, h1] at h2
        cases h2⟩
    · exact ⟨Or.inl ⟨rfl, rfl⟩, fun h1 h2 => by
        have : ({ st with droneCount := c } : ImageState).placed = st.placed := rfl
        rw [this, h1] at h2
        cases h2⟩
    · refine ⟨?_, fun h1 h2 => hplace u.shuffle c h1 h2⟩
      rcases place_cases u.shuffle { st with droneCount := c } with hsame | ⟨hnp, _, hgo⟩
      · rw [hsame]
        exact Or.inl ⟨rfl, rfl⟩
      · exact Or.inr (hplace u.shuffle c hnp (by rw [hgo]))
  refine ⟨st', hst', hcases.1, ?_, ?_, hcases.2⟩
  · rcases hcases.1 with ⟨_, h2⟩ | ⟨_, h2⟩
    · rw [h2]
    · rw [h2, hok]
      omega
  · rintro ev rfl hup hui hdrag hi
    have hcur : 0 ≤ s.currentImage := by omega
    have hidx : s.currentImage.toNat = i := by omega
    have hst0 : s.images[s.currentImage.toNat]? = some st := by rw [hidx]; exact hst
    have hev := handleEvent_release s st ev hcur hst0 hup hui hdrag
    have hget : (step (Action.event ev) s).images[i]? = some (pushHistory st) := by
      rw [step, hev, ← hidx]
      exact set_getElem? _ _ _ _ hst0
    rw [hget] at hst'
    cases hst'
    exact ⟨hpush.1, hpush.2, rfl⟩

/-! ## The drone labels (C10) -/

theorem moveDrone_getElem? (k : ℤ) (x y : ℚ) (ds : List Drone) :
    ∃ p : ℕ, ∀ j : ℕ, j ≠ p → (moveDrone k x y ds)[j]? = ds[j]? := by
  induction ds with
  | nil => exact ⟨0, fun j _ => rfl⟩
  | cons d ds ih =>
    by_cases h : d.id = k
    · refine ⟨0, fun j hj => ?_⟩
      obtain ⟨j, rfl⟩ := Nat.exists_eq_succ_of_ne_zero hj
      simp [moveDrone, h]
    · obtain ⟨p, hp⟩ := ih
      refine ⟨p + 1, fun j hj => ?_⟩
      cases j with
      | zero => simp [moveDrone, h]
      | succ j =>
        simp only [moveDrone, h, if_false, List.getElem?_cons_succ]
        exact hp j (by omega)

theorem ids_nodup (n : ℕ) : ((List.range n).map (fun j : ℕ => (j : ℤ) + 1)).Nodup := by
  apply List.Nodup.map _ (List.nodup_range n)
  intro a b hab
  simp only at hab
  omega

/-- An event changes at most one drone of one image. -/
theorem handleEvent_one_drone (ev : Event) (s : AppState) :
    ∃ i0 p : ℕ, ∀ i j : ℕ, (i ≠ i0 ∨ j ≠ p) →
      droneAt (handleEvent ev s) i j = droneAt s i j := by
  rcases (handleEvent_cases ev s).2 with hsame | ⟨st0, hst0, _, _, hpush | ⟨_, _, _, _, hmove⟩⟩
  · exact ⟨0, 0, fun i j _ => by rw [droneAt, droneAt, hsame]⟩
  · refine ⟨0, 0, fun i j _ => ?_⟩
    unfold droneAt
    rw [hpush]
    by_cases hi : i = s.currentImage.toNat
    · subst hi
      rw [set_getElem? _ _ _ _ hst0, hst0]
      rfl
    · rw [List.getElem?_set_ne (Ne.symm hi)]
  · obtain ⟨p, hp⟩ := moveDrone_getElem? s.dragId (ofInt (ev.x - centerX st0.imgRect))
      (ofInt (centerY st0.imgRect - ev.y)) st0.drones
    refine ⟨s.currentImage.toNat, p, fun i j hij => ?_⟩
    unfold droneAt
    rw [hmove]
    by_cases hi : i = s.currentImage.toNat
    · subst hi
      rw [set_getElem? _ _ _ _ hst0, hst0]
      rcases hij with h | h
      · exact absurd rfl h
      · exact hp j h
    · rw [List.getElem?_set_ne (Ne.symm hi)]

/-- C10: in every reachable state the drone list of an image is empty exactly when `placed`
is false, and its ids are `1, 2, ..., n` in list order, hence pairwise distinct.  A block of
the loop either keeps `placed` and the list of ids as they are (no drone added, removed,
reordered or renumbered), or it is the taskbar block with `Place` pressed on an image that
was not placed, after which `placed` is true and the number of drones is the `droneCount`
in force; once `placed` is true the ids never change again; and an event changes at most
one drone: all drones of all images but one keep their entry. -/
theorem drone_ids_fixed (s : AppState) (a : Action) (h : Reachable s) (i : ℕ)
    (st : ImageState) (hst : s.images[i]? = some st) :
    (st.placed = false ↔ st.drones = [])
      ∧ st.drones.map Drone.id = (List.range st.drones.length).map (fun j : ℕ => (j : ℤ) + 1)
      ∧ (st.drones.map Drone.id).Nodup
      ∧ (∃ st', (step a s).images[i]? = some st'
          ∧ ((st'.placed = st.placed ∧ st'.drones.map Drone.id = st.drones.map Drone.id)
            ∨ (st.placed = false ∧ st'.placed = true ∧ 0 < st'.droneCount
                ∧ (st'.drones.length : ℤ) = st'.droneCount
                ∧ ∃ u, a = Action.taskbar u ∧ u.place = true))
          ∧ (st.placed = true →
              st'.placed = true ∧ st'.drones.map Drone.id = st.drones.map Drone.id))
      ∧ (∀ ev, a = Action.event ev →
          ∃ i0 p : ℕ, ∀ k j : ℕ, (k ≠ i0 ∨ j ≠ p) →
            droneAt (step a s) k j = droneAt s k j) := by
  obtain ⟨_, hids, hpl⟩ := (inv_reachable s h).2 i st hst
  refine ⟨hpl, hids, by rw [hids]; exact ids_nodup _, ?_, ?_⟩
  · obtain ⟨st', hst', hstep⟩ := step_image_by a s i st hst
    refine ⟨st', hst', ?_⟩
    rcases hstep with rfl | ⟨ev, rfl, rfl | ⟨k, x, y, rfl⟩⟩ | ⟨u, c, rfl, rfl | ⟨hp, rfl⟩⟩
    · exact ⟨Or.inl ⟨rfl, rfl⟩, fun hp => ⟨hp, rfl⟩⟩
    · exact ⟨Or.inl ⟨rfl, rfl⟩, fun hp => ⟨hp, rfl⟩⟩
    · exact ⟨Or.inl ⟨rfl, moveDrone_ids _ _ _ _⟩, fun hp => ⟨hp, moveDrone_ids _ _ _ _⟩⟩
    · exact ⟨Or.inl ⟨rfl, rfl⟩, fun hp => ⟨hp, rfl⟩⟩
    · rcases place_cases u.shuffle { st with droneCount := c } with hsame | ⟨hnp, hc, hgo⟩
      · rw [hsame]
        exact ⟨Or.inl ⟨rfl, rfl⟩, fun hp => ⟨hp, rfl⟩⟩
      · rw [hgo]
        have hc' : 0 < c := hc
        refine ⟨Or.inr ⟨hnp, rfl, hc, ?_, u, rfl, hp⟩, fun hpt => ?_⟩
        · simp [pushHistory]
          omega
        · have hnp' : st.placed = false := hnp
          rw [hpt] at hnp'
          cases hnp'
  · rintro ev rfl
    exact handleEvent_one_drone ev s

/-! ## Dragging (C8) -/

/-- How the body of the event loop can leave `dragging` true: the event is a left-button
press outside the UI whose hit test found the drone id now in `dragId`, or `dragging` was
true, `dragId` is unchanged and the event is no button release outside the UI. -/
theorem handleEvent_dragging (ev : Event) (s : AppState)
    (hidx : 0 ≤ s.currentImage → ∃ st, s.images[s.currentImage.toNat]? = some st)
    (hd : (handleEvent ev s).dragging = true) :
    (ev.type = EventType.SDL_MOUSEBUTTONDOWN ∧ ev.button = Button.SDL_BUTTON_LEFT
        ∧ ev.wantCaptureMouse = false ∧ 0 ≤ s.currentImage
        ∧ ∃ st, s.images[s.currentImage.toNat]? = some st
            ∧ hitTest (centerX st.imgRect) (centerY st.imgRect) ev.x ev.y st.drones
                = some (handleEvent ev s).dragId)
      ∨ (s.dragging = true ∧ (handleEvent ev s).dragId = s.dragId
          ∧ (0 ≤ s.currentImage →
              ¬ (ev.type = EventType.SDL_MOUSEBUTTONUP ∧ ev.wantCaptureMouse = false))) := by
  by_cases hc : 0 ≤ s.currentImage ∧ ev.wantCaptureMouse = false
  · obtain ⟨st, hst⟩ := hidx hc.1
    by_cases hdown : ev.type = EventType.SDL_MOUSEBUTTONDOWN ∧ ev.button = Button.SDL_BUTTON_LEFT
    · rw [handleEvent_press s st ev hc.1 hst hdown.1 hdown.2 hc.2] at hd ⊢
      cases hh : hitTest (centerX st.imgRect) (centerY st.imgRect) ev.x ev.y st.drones with
      | none =>
        right
        simp only [hh, Option.isSome_none, Bool.false_eq_true, if_false] at hd
        exact ⟨hd, by simp, fun _ h => by rw [hdown.1] at h; cases h.1⟩
      | some id =>
        left
        exact ⟨hdown.1, hdown.2, hc.2, hc.1, st, hst, by simp [hh]⟩
    · right
      have hnone : (if ev.type = EventType.SDL_MOUSEBUTTONDOWN ∧ ev.button = Button.SDL_BUTTON_LEFT
          then hitTest (centerX st.imgRect) (centerY st.imgRect) ev.x ev.y st.drones
          else none) = none := if_neg hdown
      by_cases hup : ev.type = EventType.SDL_MOUSEBUTTONUP
      · exfalso
        revert hd
        simp [handleEvent, hc.1, hc.2, hst, hup]
      · refine ⟨?_, ?_, fun _ h => hup h.1⟩
        · revert hd
          by_cases hq : ev.type = EventType.SDL_QUIT <;>
            simp [handleEvent, hc.1, hc.2, hst, hup, hnone, hq]
        · by_cases hq : ev.type = EventType.SDL_QUIT <;>
            simp [handleEvent, hc.1, hc.2, hst, hup, hnone, hq]
  · have hs : (handleEvent ev s).dragging = s.dragging ∧ (handleEvent ev s).dragId = s.dragId := by
      by_cases hq : ev.type = EventType.SDL_QUIT <;> simp [handleEvent, hc, hq]
    right
    refine ⟨by rw [← hs.1]; exact hd, hs.2, fun h0 h => hc ⟨h0, h.2⟩⟩

/-- The record of a drag kept along a run: when `dragging` is true, an image is current and
the run contains a left-button press outside the UI whose hit test picked the drone id now
in `dragId`, with no button release outside the UI after it. -/
theorem dragging_after_press (tr : List Action) (hd : (run tr init).dragging = true) :
    0 ≤ (run tr init).currentImage
      ∧ ∃ pre p mid, tr = pre ++ Action.event p :: mid
          ∧ p.type = EventType.SDL_MOUSEBUTTONDOWN ∧ p.button = Button.SDL_BUTTON_LEFT
          ∧ p.wantCaptureMouse = false
          ∧ (∃ st, 0 ≤ (run pre init).currentImage
              ∧ (run pre init).images[(run pre init).currentImage.toNat]? = some st
              ∧ hitTest (centerX st.imgRect) (centerY st.imgRect) p.x p.y st.drones
                  = some (run tr init).dragId)
          ∧ ∀ q, Action.event q ∈ mid →
              ¬ (q.type = EventType.SDL_MOUSEBUTTONUP ∧ q.wantCaptureMouse = false) := by
  induction tr using List.reverseRecOn with
  | nil => simp [run, init] at hd
  | append_singleton tr a ih =>
    rw [run_snoc] at hd ⊢
    have hinv := inv_reachable (run tr init) ⟨tr, rfl⟩
    have hidx : 0 ≤ (run tr init).currentImage →
        ∃ st, (run tr init).images[(run tr init).currentImage.toNat]? = some st :=
      (currentImage_in_bounds (run tr init) hinv.1)
    cases a with
    | event ev =>
      simp only [step] at hd ⊢
      rcases handleEvent_dragging ev (run tr init) hidx hd with
        ⟨h1, h2, h3, h4, st, hst, hhit⟩ | ⟨hwas, hid, hnoup⟩
      · refine ⟨by rw [(handleEvent_cases ev _).1]; exact h4, tr, ev, [], rfl, h1, h2, h3,
          ⟨st, h4, hst, hhit⟩, fun q hq => by simp at hq⟩
      · obtain ⟨h0, pre, p, mid, rfl, hp1, hp2, hp3, hp4, hp5⟩ := ih hwas
        refine ⟨by rw [(handleEvent_cases ev _).1]; exact h0, pre, p, mid ++ [Action.event ev],
          by simp, hp1, hp2, hp3, ?_, ?_⟩
        · rw [hid]
          exact hp4
        · intro q hq
          rcases List.mem_append.mp hq with hq | hq
          · exact hp5 q hq
          · simp only [List.mem_singleton, Action.event.injEq] at hq
            subst hq
            exact hnoup h0
    | fileDialog l =>
      have hsame : (step (Action.fileDialog l) (run tr init)).dragging = (run tr init).dragging
          ∧ (step (Action.fileDialog l) (run tr init)).dragId = (run tr init).dragId := by
        cases l <;> exact ⟨rfl, rfl⟩
      obtain ⟨h0, pre, p, mid, rfl, hp1, hp2, hp3, hp4, hp5⟩ := ih (by rw [← hsame.1]; exact hd)
      refine ⟨?_, pre, p, mid ++ [Action.fileDialog l], by simp, hp1, hp2, hp3, ?_, ?_⟩
      · cases l with
        | none => exact h0
        | some l =>
          simp only [step, loadStep, List.length_append, List.length_singleton]
          push_cast
          omega
      · rw [hsame.2]
        exact hp4
      · intro q hq
        rcases List.mem_append.mp hq with hq | hq
        · exact hp5 q hq
        · simp at hq
    | taskbar u =>
      obtain ⟨_, hdr, hid, _, hcur⟩ := taskbarStep_cases u (run tr init)
      simp only [step] at hd ⊢
      obtain ⟨h0, pre, p, mid, rfl, hp1, hp2, hp3, hp4, hp5⟩ := ih (by rw [← hdr]; exact hd)
      refine ⟨?_, pre, p, mid ++ [Action.taskbar u], by simp, hp1, hp2, hp3, ?_, ?_⟩
      · rcases hcur with h | ⟨h3, h⟩ | ⟨h, h3⟩ | ⟨h3, h, _⟩ <;> rw [h] <;> omega
      · rw [hid]
        exact hp4
      · intro q hq
        rcases List.mem_append.mp hq with hq | hq
        · exact hp5 q hq
        · simp at hq

theorem moveDrone_changed (k : ℤ) (x y : ℚ) (ds : List Drone) (j : ℕ)
    (h : (moveDrone k x y ds)[j]? ≠ ds[j]?) :
    ∃ d, ds[j]? = some d ∧ d.id = k
      ∧ ∀ (m : ℕ) (e : Drone), m < j → ds[m]? = some e → e.id ≠ k := by
  induction ds generalizing j with
  | nil => exact absurd rfl h
  | cons d ds ih =>
    by_cases hd : d.id = k
    · cases j with
      | zero => exact ⟨d, by simp, hd, fun m e hm => absurd hm (Nat.not_lt_zero m)⟩
      | succ j =>
        exfalso
        apply h
        simp [moveDrone, hd]
    · cases j with
      | zero =>
        exfalso
        apply h
        simp [moveDrone, hd]
      | succ j =>
        have h2 : (moveDrone k x y ds)[j]? ≠ ds[j]? := by
          intro hcon
          apply h
          simp [moveDrone, hd, hcon]
        obtain ⟨e, he, hek, hbefore⟩ := ih j h2
        refine ⟨e, by simpa using he, hek, fun m e2 hm hm2 => ?_⟩
        cases m with
        | zero =>
          simp only [List.getElem?_cons_zero, Option.some.injEq] at hm2
          rw [← hm2]
          exact hd
        | succ m => exact hbefore m e2 (by omega) (by simpa using hm2)

/-- C8, amended: an event changes the drone in position `j` of image `i` only if it is a
mouse motion handled outside the UI while `dragging` is set; the image is the current one
and the drone is the first one in its list whose id is `dragId`; and the run contains a
left-button press, handled outside the UI, whose hit test picked a drone with that id in
the image current at the press, with no mouse-button release handled outside the UI
between that press and the motion. -/
theorem drone_moves_only_while_dragging (tr : List Action) (ev : Event) (i j : ℕ)
    (hch : droneAt (step (Action.event ev) (run tr init)) i j ≠ droneAt (run tr init) i j) :
    ev.type = EventType.SDL_MOUSEMOTION ∧ ev.wantCaptureMouse = false
      ∧ (run tr init).dragging = true
      ∧ (i : ℤ) = (run tr init).currentImage
      ∧ (∃ st d, (run tr init).images[i]? = some st ∧ st.drones[j]? = some d
          ∧ d.id = (run tr init).dragId
          ∧ ∀ (m : ℕ) (e : Drone), m < j → st.drones[m]? = some e →
              e.id ≠ (run tr init).dragId)
      ∧ ∃ pre p mid, tr = pre ++ Action.event p :: mid
          ∧ p.type = EventType.SDL_MOUSEBUTTONDOWN ∧ p.button = Button.SDL_BUTTON_LEFT
          ∧ p.wantCaptureMouse = false
          ∧ (∃ st, 0 ≤ (run pre init).currentImage
              ∧ (run pre init).images[(run pre init).currentImage.toNat]? = some st
              ∧ hitTest (centerX st.imgRect) (centerY st.imgRect) p.x p.y st.drones
                  = some (run tr init).dragId)
          ∧ ∀ q, Action.event q ∈ mid →
              ¬ (q.type = EventType.SDL_MOUSEBUTTONUP ∧ q.wantCaptureMouse = false) := by
  set s := run tr init with hs
  simp only [step] at hch
  rcases (handleEvent_cases ev s).2 with hsame | ⟨st0, hst0, h0, hui, hpush | ⟨hmot, hdrag, _, _, hmove⟩⟩
  · exact absurd (by rw [droneAt, droneAt, hsame]) hch
  · exfalso
    apply hch
    unfold droneAt
    rw [hpush]
    by_cases hi : i = s.currentImage.toNat
    · subst hi
      rw [set_getElem? _ _ _ _ hst0, hst0]
      rfl
    · rw [List.getElem?_set_ne (Ne.symm hi)]
  · have hi : i = s.currentImage.toNat := by
      by_contra hi
      apply hch
      unfold droneAt
      rw [hmove, List.getElem?_set_ne (Ne.symm hi)]
    have hj : (moveDrone s.dragId (ofInt (ev.x - centerX st0.imgRect))
        (ofInt (centerY st0.imgRect - ev.y)) st0.drones)[j]? ≠ st0.drones[j]? := by
      intro hcon
      apply hch
      unfold droneAt
      rw [hmove, hi, set_getElem? _ _ _ _ hst0, hst0]
      exact hcon
    obtain ⟨d, hd, hdk, hfirst⟩ := moveDrone_changed _ _ _ _ _ hj
    refine ⟨hmot, hui, hdrag, by omega, ⟨st0, d, by rw [hi]; exact hst0, hd, hdk, hfirst⟩, ?_⟩
    exact (dragging_after_press tr hdrag).2

/-! ## A run that switches images during a drag -/

theorem switchTrace_eq : switchFrames.flatMap Frame.actions = switchTrace := rfl

theorem edgePoints_demo : edgePoints (newImage demoLoaded).edgesMat = [⟨0, 0⟩] := by decide

theorem place_demo :
    place id { newImage demoLoaded with droneCount := 1 } = demoPlaced := by
  rw [place_eq id _ rfl (by decide) (by decide)]
  have hx := mkDrone_x_exact (newImage demoLoaded).imgRect 0 ⟨0, 0⟩ (by decide) (by decide)
    (by decide)
  have hy := mkDrone_y_exact (newImage demoLoaded).imgRect 0 ⟨0, 0⟩ (by decide) (by decide)
    (by decide)
  have hd : mkDrone (newImage demoLoaded).imgRect 0 ⟨0, 0⟩ = ⟨1, -1, 1⟩ := by
    cases hm : mkDrone (newImage demoLoaded).imgRect 0 ⟨0, 0⟩ with
    | mk id x y =>
      have hid : (mkDrone (newImage demoLoaded).imgRect 0 ⟨0, 0⟩).id = 1 := by simp [mkDrone]
      rw [hm] at hx hy hid
      simp only at hx hy hid
      rw [hx, hy, hid]
      norm_num [newImage, demoLoaded]
  have hpts : (id (edgePoints (newImage demoLoaded).edgesMat)).getD 0 ⟨0, 0⟩ = ⟨0, 0⟩ := by
    rw [id, edgePoints_demo]
    rfl
  have hlist : (List.range (1 : ℤ).toNat).map
      (fun i => mkDrone (newImage demoLoaded).imgRect i
        ((id (edgePoints (newImage demoLoaded).edgesMat)).getD i ⟨0, 0⟩)) = [⟨1, -1, 1⟩] := by
    show [mkDrone (newImage demoLoaded).imgRect 0
      ((id (edgePoints (newImage demoLoaded).edgesMat)).getD 0 ⟨0, 0⟩)] = _
    rw [hpts, hd]
  show ({ pushHistory { newImage demoLoaded with
      droneCount := 1
      drones := ((List.range (1 : ℤ).toNat).map
        (fun i => mkDrone (newImage demoLoaded).imgRect i
          ((id (edgePoints (newImage demoLoaded).edgesMat)).getD i ⟨0, 0⟩))) }
    with placed := true } : ImageState) = _
  rw [hlist]
  rfl

theorem step_pressPlace_fresh (imgs : List ImageState) :
    taskbarStep pressPlace
        { images := imgs ++ [{ newImage demoLoaded with droneCount := 1 }],
          currentImage := (imgs.length : ℤ), running := true, dragging := false, dragId := -1 }
      = { images := imgs ++ [demoPlaced], currentImage := (imgs.length : ℤ), running := true,
          dragging := false, dragId := -1 } := by
  have hget : (imgs ++ [({ newImage demoLoaded with droneCount := 1 } : ImageState)])[
      ((imgs.length : ℤ)).toNat]? = some { newImage demoLoaded with droneCount := 1 } := by
    simp
  have h0 : (0 : ℤ) ≤ (imgs.length : ℤ) := by omega
  unfold taskbarStep
  simp only [h0, if_true, hget]
  have hplace : place pressPlace.shuffle { newImage demoLoaded with droneCount := 1 }
      = demoPlaced := place_demo
  simp [pressPlace, idle, hplace, place_demo]

theorem run_setupTrace : run setupTrace init = twoPlaced := by
  have h1 : step (Action.fileDialog (some demoLoaded)) init
      = { images := [newImage demoLoaded], currentImage := 0, running := true,
          dragging := false, dragId := -1 } := by decide
  have h2 : step (Action.taskbar typeOne)
        { images := [newImage demoLoaded], currentImage := 0, running := true,
          dragging := false, dragId := -1 }
      = { images := [{ newImage demoLoaded with droneCount := 1 }], currentImage := 0,
          running := true, dragging := false, dragId := -1 } := by decide
  have h3 : step (Action.taskbar pressPlace)
        { images := [{ newImage demoLoaded with droneCount := 1 }], currentImage := 0,
          running := true, dragging := false, dragId := -1 }
      = { images := [demoPlaced], currentImage := 0, running := true,
          dragging := false, dragId := -1 } := step_pressPlace_fresh []
  have h4 : step (Action.fileDialog (some demoLoaded))
        { images := [demoPlaced], currentImage := 0, running := true,
          dragging := false, dragId := -1 }
      = { images := [demoPlaced, newImage demoLoaded], currentImage := 1, running := true,
          dragging := false, dragId := -1 } := by decide
  have h5 : step (Action.taskbar typeOne)
        { images := [demoPlaced, newImage demoLoaded], currentImage := 1, running := true,
          dragging := false, dragId := -1 }
      = { images := [demoPlaced, { newImage demoLoaded with droneCount := 1 }],
          currentImage := 1, running := true, dragging := false, dragId := -1 } := by decide
  have h6 : step (Action.taskbar pressPlace)
        { images := [demoPlaced, { newImage demoLoaded with droneCount := 1 }],
          currentImage := 1, running := true, dragging := false, dragId := -1 }
      = twoPlaced := step_pressPlace_fresh [demoPlaced]
  have i1 : step (Action.taskbar idle)
        { images := [newImage demoLoaded], currentImage := 0, running := true,
          dragging := false, dragId := -1 }
      = { images := [newImage demoLoaded], currentImage := 0, running := true,
          dragging := false, dragId := -1 } := by decide
  have i2 : step (Action.taskbar idle)
        { images := [demoPlaced, newImage demoLoaded], currentImage := 1, running := true,
          dragging := false, dragId := -1 }
      = { images := [demoPlaced, newImage demoLoaded], currentImage := 1, running := true,
          dragging := false, dragId := -1 } := by decide
  have hn : ∀ s, step (Action.fileDialog none) s = s := fun _ => rfl
  rw [setupTrace]
  simp only [run_cons, run_nil, hn]
  rw [h1, i1, h2, h3, h4, i2, h5, h6]

theorem toInt_neg_one : toInt (-1 : ℚ) = -1 := by
  have := toInt_intCast (-1)
  simpa using this

theorem toInt_one : toInt (1 : ℚ) = 1 := by
  have := toInt_intCast 1
  simpa using this

theorem hitTest_demoPress :
    hitTest (centerX demoPlaced.imgRect) (centerY demoPlaced.imgRect) demoPress.x demoPress.y
      demoPlaced.drones = some 1 := by
  have hcx : centerX demoPlaced.imgRect = 512 := by decide
  have hcy : centerY demoPlaced.imgRect = 384 := by decide
  rw [hcx, hcy]
  simp [hitTest, hit, screenX, screenY, demoPlaced, demoPress, toInt_neg_one, toInt_one]

theorem run_switchTrace : run switchTrace init = switched := by
  rw [switchTrace, run_append, run_setupTrace]
  have hp : step (Action.event demoPress) twoPlaced
      = { twoPlaced with dragging := true, dragId := 1 } := by
    rw [step, handleEvent_press twoPlaced demoPlaced demoPress (by decide) (by decide) rfl rfl rfl,
      hitTest_demoPress]
    rfl
  have hn : ∀ s, step (Action.fileDialog none) s = s := fun _ => rfl
  simp only [run_cons, run_nil, hn]
  rw [hp]
  decide

theorem step_nearMotion_switched : step (Action.event nearMotion) switched = movedState := by
  rw [step, handleEvent_motion switched demoPlaced nearMotion (by decide) (by decide) rfl rfl rfl]
  have hcx : centerX demoPlaced.imgRect = 512 := by decide
  have hcy : centerY demoPlaced.imgRect = 384 := by decide
  have h1 : ofInt (nearMotion.x - 512) = 88 := by
    have : nearMotion.x - 512 = 88 := by decide
    rw [this, ofInt_exact 88 (by norm_num)]
    norm_num
  have h2 : ofInt (384 - nearMotion.y) = 84 := by
    have : (384 : ℤ) - nearMotion.y = 84 := by decide
    rw [this, ofInt_exact 84 (by norm_num)]
    norm_num
  rw [hcx, hcy, h1, h2]
  simp [switched, movedState, demoPlaced, moveDrone]

theorem run_movedState : run (switchTrace ++ [Action.event nearMotion]) init = movedState := by
  rw [run_snoc, run_switchTrace, step_nearMotion_switched]

/-- The first image's drone follows a motion after `switchTrace`. -/
theorem motion_after_switchTrace :
    droneAt (step (Action.event nearMotion) (run switchTrace init)) 0 0 = some ⟨1, 88, 84⟩
      ∧ droneAt (run switchTrace init) 0 0 = some ⟨1, -1, 1⟩ := by
  rw [run_switchTrace, step_nearMotion_switched]
  exact ⟨by decide, by decide⟩

theorem step_running (a : Action) (s : AppState)
    (h : ∀ ev, a = Action.event ev → ev.type ≠ EventType.SDL_QUIT) :
    (step a s).running = s.running := by
  cases a with
  | event ev =>
    have hq := h ev rfl
    simp only [step, handleEvent, if_neg hq]
    by_cases hc : 0 ≤ s.currentImage ∧ ev.wantCaptureMouse = false
    · rw [if_pos hc]
      cases s.images[s.currentImage.toNat]? <;> rfl
    · rw [if_neg hc]
  | fileDialog l => cases l <;> rfl
  | taskbar u =>
    simp only [step, taskbarStep]
    by_cases hc : 0 ≤ s.currentImage
    · rw [if_pos hc]
      cases s.images[s.currentImage.toNat]? <;> rfl
    · rw [if_neg hc]

theorem run_running (as : List Action) (s : AppState)
    (h : ∀ ev, Action.event ev ∈ as → ev.type ≠ EventType.SDL_QUIT) :
    (run as s).running = s.running := by
  induction as generalizing s with
  | nil => rfl
  | cons a as ih =>
    rw [run_cons, ih _ (fun ev hev => h ev (List.mem_cons_of_mem _ hev)),
      step_running a s (fun ev hev => h ev (by rw [hev]; exact List.mem_cons_self _ _))]

/-- As long as no quit event arrives, the main loop runs the blocks of all its frames. -/
theorem mainLoop_eq_run_of_no_quit (fs : List Frame) (s : AppState) (hs : s.running = true)
    (h : ∀ f ∈ fs, ∀ ev ∈ f.events, ev.type ≠ EventType.SDL_QUIT) :
    mainLoop fs s = run (fs.flatMap Frame.actions) s := by
  induction fs generalizing s with
  | nil => rfl
  | cons f fs ih =>
    have hf : ∀ ev, Action.event ev ∈ f.actions → ev.type ≠ EventType.SDL_QUIT := by
      intro ev hev
      simp only [Frame.actions, List.mem_append, List.mem_map, List.mem_cons,
        List.mem_singleton, List.not_mem_nil, or_false] at hev
      rcases hev with ⟨e, he, heq⟩ | h1 | h1
      · cases heq
        exact h f (List.mem_cons_self _ _) _ he
      · cases h1
      · cases h1
    simp only [mainLoop, hs, if_true, List.flatMap_cons, run_append]
    apply ih
    · rw [frame, run_running _ _ hf, hs]
    · exact fun g hg => h g (List.mem_cons_of_mem _ hg)

/-- The run `switchTrace` is what the main loop does on the frames `switchFrames`. -/
theorem mainLoop_switchFrames : mainLoop switchFrames init = run switchTrace init := by
  rw [mainLoop_eq_run_of_no_quit switchFrames init rfl (by decide), switchTrace_eq]

/-- C8 as stated fails: it is not the case that whenever a mouse-motion event changes the
drone in position `j` of image `i`, the run so far contains a left-button press, made while
image `i` was current, that hit that drone, with no mouse-button release event between that
press and the motion.  After the frames `switchFrames` (two images with one drone each are
set up, the drone of the second image is pressed, `<< Prev` makes the first image current)
a mouse motion moves the drone of the first image, which no press has hit: the only press
of the run was made while the second image was current. -/
theorem drag_follows_image_switch :
    ¬ ∀ (tr : List Action) (ev : Event) (i j : ℕ),
      ev.type = EventType.SDL_MOUSEMOTION →
      droneAt (step (Action.event ev) (run tr init)) i j ≠ droneAt (run tr init) i j →
      ∃ pre p mid, tr = pre ++ Action.event p :: mid
        ∧ p.type = EventType.SDL_MOUSEBUTTONDOWN ∧ p.button = Button.SDL_BUTTON_LEFT
        ∧ (run pre init).currentImage = (i : ℤ)
        ∧ (∃ st d, (run pre init).images[i]? = some st ∧ st.drones[j]? = some d
            ∧ hit (centerX st.imgRect) (centerY st.imgRect) p.x p.y d = true)
        ∧ ∀ q, Action.event q ∈ mid → q.type ≠ EventType.SDL_MOUSEBUTTONUP := by
  intro H
  obtain ⟨h1, h2⟩ := motion_after_switchTrace
  obtain ⟨pre, p, mid, hsplit, hdown, _, hcur, _, _⟩ :=
    H switchTrace nearMotion 0 0 rfl (by rw [h1, h2]; decide)
  have hlen : pre.length < 17 := by
    have := congrArg List.length hsplit
    simp only [switchTrace, setupTrace, List.length_append, List.length_cons,
      List.length_nil] at this
    omega
  have hk : switchTrace[pre.length]? = some (Action.event p) := by
    rw [hsplit, List.getElem?_append_right (le_refl _)]
    simp
  have hpre : pre = switchTrace.take pre.length := by
    rw [hsplit]
    simp
  obtain ⟨k, hkdef⟩ : ∃ k, k = pre.length := ⟨_, rfl⟩
  rw [← hkdef] at hlen hk hpre
  have hk12 : k = 12 := by
    interval_cases k <;> first
      | rfl
      | (exfalso; simp [switchTrace, setupTrace] at hk)
  subst hk12
  have hrun : run pre init = twoPlaced := by
    rw [hpre]
    exact run_setupTrace
  rw [hrun] at hcur
  revert hcur
  decide

/-- The amended C8 on the run `switchTrace` followed by a motion: the drone of the first
image moves, `dragging` is set, and the run contains the press that set it. -/
theorem drone_moves_only_while_dragging_witness :
    droneAt (step (Action.event nearMotion) (run switchTrace init)) 0 0
        ≠ droneAt (run switchTrace init) 0 0
      ∧ nearMotion.type = EventType.SDL_MOUSEMOTION
      ∧ (run switchTrace init).dragging = true
      ∧ ∃ pre p mid, switchTrace = pre ++ Action.event p :: mid
          ∧ p.type = EventType.SDL_MOUSEBUTTONDOWN ∧ p.button = Button.SDL_BUTTON_LEFT
          ∧ p.wantCaptureMouse = false
          ∧ ∀ q, Action.event q ∈ mid →
              ¬ (q.type = EventType.SDL_MOUSEBUTTONUP ∧ q.wantCaptureMouse = false) := by
  have hne : droneAt (step (Action.event nearMotion) (run switchTrace init)) 0 0
      ≠ droneAt (run switchTrace init) 0 0 := by
    rw [motion_after_switchTrace.1, motion_after_switchTrace.2]
    decide
  obtain ⟨h1, _, h3, _, _, pre, p, mid, h6, h7, h8, h9, _, h11⟩ :=
    drone_moves_only_while_dragging switchTrace nearMotion 0 0 hne
  exact ⟨hne, h1, h3, pre, p, mid, h6, h7, h8, h9, h11⟩

/-- C7 on the state `twoPlaced`: the press `demoPress` lies in the square of the drone of the
current image and starts a drag. -/
theorem press_picks_first_drone_witness :
    (0 : ℤ) ≤ twoPlaced.currentImage
      ∧ twoPlaced.images[twoPlaced.currentImage.toNat]? = some demoPlaced
      ∧ demoPress.type = EventType.SDL_MOUSEBUTTONDOWN
      ∧ demoPress.button = Button.SDL_BUTTON_LEFT ∧ demoPress.wantCaptureMouse = false
      ∧ (handleEvent demoPress twoPlaced).dragging = true :=
  ⟨by decide, by decide, rfl, rfl, rfl,
    (press_picks_first_drone twoPlaced demoPlaced demoPress (by decide) (by decide) rfl rfl
      rfl).2.2 ⟨1, -1, 1⟩ (by simp [demoPlaced])
      (by
        simp only [toInt_neg_one, toInt_one]
        decide)⟩

/-- C10 on the state after `switchTrace` and a mouse motion: the first image has its drone
list `[1]` of ids, and the motion changes at most one drone of one image. -/
theorem drone_ids_fixed_witness :
    Reachable (run switchTrace init)
      ∧ (run switchTrace init).images[0]? = some demoPlaced
      ∧ (demoPlaced.placed = false ↔ demoPlaced.drones = [])
      ∧ (demoPlaced.drones.map Drone.id).Nodup
      ∧ ∃ i0 p : ℕ, ∀ k j : ℕ, (k ≠ i0 ∨ j ≠ p) →
          droneAt (step (Action.event nearMotion) (run switchTrace init)) k j
            = droneAt (run switchTrace init) k j := by
  have hst : (run switchTrace init).images[0]? = some demoPlaced := by
    rw [run_switchTrace]
    decide
  have h := drone_ids_fixed (run switchTrace init) (Action.event nearMotion) ⟨_, rfl⟩ 0
    demoPlaced hst
  exact ⟨⟨_, rfl⟩, hst, h.1, h.2.2.1, h.2.2.2.2 nearMotion rfl⟩

/-- The amended C4 after a drag: in `movedState` the first image has one history entry and
its drone has been dragged to `(88, 84)`; the button release records that drone list as
entry 1. -/
theorem history_append_only_witness :
    Reachable (run (switchTrace ++ [Action.event nearMotion]) init)
      ∧ (run (switchTrace ++ [Action.event nearMotion]) init).images[0]?
          = some { demoPlaced with drones := [⟨1, 88, 84⟩] }
      ∧ ∃ st', (step (Action.event demoRelease)
            (run (switchTrace ++ [Action.event nearMotion]) init)).images[0]? = some st'
          ∧ st'.history = [[⟨1, -1, 1⟩], [⟨1, 88, 84⟩]]
          ∧ st'.historyIndex = 1 := by
  have hrun : run (switchTrace ++ [Action.event nearMotion]) init = movedState :=
    run_movedState
  have hst : (run (switchTrace ++ [Action.event nearMotion]) init).images[0]?
      = some { demoPlaced with drones := [⟨1, 88, 84⟩] } := by
    rw [hrun]
    decide
  obtain ⟨_, _, st', hst', _, _, hrel, _⟩ :=
    history_append_only (run (switchTrace ++ [Action.event nearMotion]) init)
      (Action.event demoRelease) ⟨_, rfl⟩ 0 { demoPlaced with drones := [⟨1, 88, 84⟩] } hst
      (by decide)
  obtain ⟨h1, h2, _⟩ := hrel demoRelease rfl rfl rfl (by rw [hrun]; rfl) (by rw [hrun]; rfl)
  exact ⟨⟨_, rfl⟩, hst, st', hst', by rw [h1]; rfl, by rw [h2]; rfl⟩

end DronePlanner
